import Mathlib

set_option maxHeartbeats 1000000
set_option synthInstance.maxHeartbeats 400000

/-!
Shallow embedding of the file organizer (`organize.py`) and proofs about it.

Modelling conventions:
* A filesystem path is a list of components (`os.path.join dir name` becomes
  `dir ++ [name]`); `os.path.dirname` becomes `List.dropLast`.
* The filesystem is a pair of an association list from paths to file contents
  and a list of existing directories.  File contents are abstract: an opaque
  byte blob, a parsed JSON move log (a list of records), or unparseable junk.
* `os.makedirs(p, exist_ok=True)` is modelled as total creation of `p` and all
  its ancestors (the exotic failure when a file sits at `p` is out of scope of
  the claims).
* `shutil.move` and per-entry undo failures are driven by an explicit failure
  oracle (`Nat → Bool`), since whether the OS call raises is environmental.
* `datetime.now().isoformat()` is an abstract timestamp source `Nat → String`.
* Console output is collected in a list of strings.
-/

abbrev FPath := List String

/-- Render a component path the way `os.path.join` renders it. -/
def pathStr (p : FPath) : String := String.intercalate "/" p

/-- A move record as stored in the JSON log.  `src`/`dest` are `none` when the
field is missing or null in the stored object (`entry.get` in the source);
an empty path models the empty string (which is falsy in Python). -/
structure LogEntry where
  timestamp : String
  src : Option FPath
  dest : Option FPath
deriving DecidableEq

/-- Content of a file: an opaque blob of bytes, a JSON list of move records,
or content that does not parse as a list of records. -/
inductive FileData where
  | blob (id : Nat) : FileData
  | log (entries : List LogEntry) : FileData
  | junk : FileData
deriving DecidableEq

/-- Filesystem state: regular files with their contents, and directories. -/
structure FS where
  files : List (FPath × FileData)
  dirs : List FPath
deriving DecidableEq

/-- World state: the filesystem plus the console output so far. -/
structure World where
  fs : FS
  out : List String
deriving DecidableEq

/-- All existing paths (files first, then directories). -/
def pathsList (fs : FS) : List FPath := fs.files.map Prod.fst ++ fs.dirs

/-- Content of the file at `p`, if a regular file exists there. -/
def FS.lookup (fs : FS) (p : FPath) : Option FileData :=
  (fs.files.find? (fun e => decide (e.1 = p))).map Prod.snd

/-- Model of `os.path.exists`: a file or a directory exists at `p`. -/
def FS.pathExistsB (fs : FS) (p : FPath) : Bool := decide (p ∈ pathsList fs)

/-- Model of `os.path.isdir`. -/
def FS.isdir (fs : FS) (p : FPath) : Bool := decide (p ∈ fs.dirs)

/-- The proper ancestors of `p` together with `p` itself, shortest first. -/
def ancestorsOf (p : FPath) : List FPath :=
  (List.range p.length).map (fun i => p.take (i + 1))

/-- Model of `ensure_dir` (`os.makedirs(path, exist_ok=True)`): create the
directory and every missing ancestor; idempotent. -/
def FS.ensureDir (fs : FS) (p : FPath) : FS :=
  { fs with dirs := fs.dirs ++ (ancestorsOf p).filter (fun q => decide (q ∉ fs.dirs)) }

/-- Model of a successful `shutil.move src dest` for regular files: the first
entry at `src` is rehomed to `dest`, overwriting any file at `dest`.  When no
file is at `src` the state is unchanged (the real call would raise; all call
sites either guard on existence or route failures through the oracle). -/
def FS.moveFile (fs : FS) (src dest : FPath) : FS :=
  match fs.files.find? (fun e => decide (e.1 = src)) with
  | none => fs
  | some e =>
    { fs with files := fs.files.filter (fun x => decide (x.1 ≠ src) && decide (x.1 ≠ dest)) ++ [(dest, e.2)] }

/-- Create or fully overwrite the file at `p` with content `d`. -/
def FS.setFile (fs : FS) (p : FPath) (d : FileData) : FS :=
  { fs with files := fs.files.filter (fun e => decide (e.1 ≠ p)) ++ [(p, d)] }

/-- Model of `os.remove p` (no-op when the file is already gone; the source
wraps the call in try/except). -/
def FS.removeFile (fs : FS) (p : FPath) : FS :=
  { fs with files := fs.files.filter (fun e => decide (e.1 ≠ p)) }

/-- The name `n` when `p` is a direct child of `dir`, else `none`. -/
def childName (dir : FPath) (p : FPath) : Option String :=
  match p.getLast? with
  | some n => if p.dropLast = dir then some n else none
  | none => none

/-- Model of `os.listdir dir`: the names of files and directories directly
inside `dir` (the real order is unspecified; the model fixes one). -/
def FS.listdir (fs : FS) (dir : FPath) : List String :=
  (fs.files.map Prod.fst).filterMap (childName dir) ++ fs.dirs.filterMap (childName dir)

/-- The fixed category table `FILE_TYPES` from the source configuration. -/
def FILE_TYPES : List (String × List String) :=
  [("Images", [".jpg", ".jpeg", ".png", ".gif", ".bmp", ".webp"]),
   ("Documents", [".pdf", ".docx", ".doc", ".txt", ".xlsx", ".csv", ".pptx"]),
   ("Music", [".mp3", ".wav", ".ogg"]),
   ("Videos", [".mp4", ".mov", ".avi", ".mkv"]),
   ("Archives", [".zip", ".tar", ".gz", ".rar"]),
   ("Scripts", [".py", ".js", ".sh"])]

/-- Scan the category table in order for the first category whose extension
list contains `ext` (the `for` loop of `get_category_for_extension`). -/
def findCat : List (String × List String) → String → Option String
  | [], _ => none
  | (cat, exts) :: rest, ext => if ext ∈ exts then some cat else findCat rest ext

/-- Model of `get_category_for_extension`: category for an extension, or
`none` when unknown. -/
def get_category_for_extension (ext : String) : Option String := findCat FILE_TYPES ext

/-- Take the longest leading run of characters different from a dot; the rest
starts with a dot (or is empty). -/
def spanNeqDot : List Char → List Char × List Char
  | [] => ([], [])
  | c :: cs => if c = '.' then ([], c :: cs) else
      ((spanNeqDot cs).1.cons c, (spanNeqDot cs).2)

/-- Model of `os.path.splitext` for a bare filename: split at the last dot,
provided some character strictly before it is not a dot (so names made of
leading dots only, like `.bashrc` or `..txt`, have an empty extension). -/
def splitextF (s : String) : String × String :=
  match (spanNeqDot s.data.reverse).2 with
  | [] => (s, "")
  | c :: revBase =>
    if revBase.reverse.any (fun ch => decide (ch ≠ '.')) then
      (String.mk revBase.reverse, String.mk (c :: (spanNeqDot s.data.reverse).1.reverse))
    else (s, "")

/-- Model of `str.lower()` (character-wise ASCII lowercasing, the relevant
behavior for extensions). -/
def toLowerF (s : String) : String := String.mk (s.data.map Char.toLower)

/-- Decimal digits of `n`, most significant first, via fueled recursion
(the fuel `n + 1` always suffices). -/
def natReprAux : Nat → Nat → List Char
  | 0, _ => []
  | fuel + 1, n =>
    if n < 10 then [Nat.digitChar n]
    else natReprAux fuel (n / 10) ++ [Nat.digitChar (n % 10)]

/-- Decimal rendering of a natural number (the `f"{counter}"` of the source). -/
def natRepr (n : Nat) : String := String.mk (natReprAux (n + 1) n)

/-- Candidate names tried by `unique_dest_path`: the filename itself, then
`base(1).ext`, `base(2).ext`, and so on. -/
def uniqueCandidate (filename : String) : Nat → String
  | 0 => filename
  | k + 1 => (splitextF filename).1 ++ "(" ++ natRepr (k + 1) ++ ")" ++ (splitextF filename).2

/-- The while loop of `unique_dest_path`: starting at candidate index `k`,
walk forward until a candidate path does not exist.  The fuel argument only
bounds the recursion; `uniqueIdxAux_spec` shows the fuel used by
`unique_dest_path` is never exhausted, so the model agrees with the
unbounded loop of the source. -/
def uniqueIdxAux (fs : FS) (dest_dir : FPath) (filename : String) : Nat → Nat → Nat
  | 0, k => k
  | fuel + 1, k =>
    if fs.pathExistsB (dest_dir ++ [uniqueCandidate filename k]) then
      uniqueIdxAux fs dest_dir filename fuel (k + 1)
    else k

/-- Model of `unique_dest_path`: the first candidate path inside `dest_dir`
that does not exist. -/
def unique_dest_path (fs : FS) (dest_dir : FPath) (filename : String) : FPath :=
  dest_dir ++ [uniqueCandidate filename (uniqueIdxAux fs dest_dir filename ((pathsList fs).length + 1) 0)]

/-- The constant `LOG_FILENAME`. -/
def LOG_FILENAME : String := "organize_log.json"

/-- The constant `DEFAULT_OUTPUT`. -/
def DEFAULT_OUTPUT : String := "organized_output"

/-- The log file path inside an output folder. -/
def logPath (output_folder : FPath) : FPath := output_folder ++ [LOG_FILENAME]

/-- Model of `write_log`: ensure the output folder exists; if the log file
holds a valid list, prepend it to the new entries; then fully overwrite the
log file with the result.  A log file that fails to parse or is not a list is
ignored (the except/isinstance fallthrough of the source). -/
def write_log (fs : FS) (output_folder : FPath) (log_entries : List LogEntry) : FS :=
  (fs.ensureDir output_folder).setFile (logPath output_folder)
    (FileData.log
      (match (fs.ensureDir output_folder).lookup (logPath output_folder) with
       | some (FileData.log existing) => existing ++ log_entries
       | some _ => log_entries
       | none => log_entries))

/-- Model of `load_log`: the stored list when the log file exists and parses
as a list, `[]` otherwise (missing or corrupted log is never an error). -/
def load_log (fs : FS) (output_folder : FPath) : List LogEntry :=
  match fs.lookup (logPath output_folder) with
  | some (FileData.log entries) => entries
  | _ => []

/-- Truthiness of an optional path: `not x` in Python is true for a missing
field, a null value, and the empty string. -/
def falsyPath : Option FPath → Bool
  | none => true
  | some p => p.isEmpty

/-- State of the undo loop: the filesystem, the collected failed entries (in
reverse-chronological processing order), and the console output. -/
structure UndoSt where
  fs : FS
  failed : List LogEntry
  out : List String
deriving DecidableEq

/-- One iteration of the undo loop over a single log entry, at reverse
position `i`; `failP i` tells whether the `shutil.move` back raises. -/
def undoStep (failP : Nat → Bool) (i : Nat) (st : UndoSt) (entry : LogEntry) : UndoSt :=
  if falsyPath entry.dest || falsyPath entry.src then st
  else
    let src := entry.src.getD []
    let dest := entry.dest.getD []
    if st.fs.pathExistsB dest then
      let fs1 := st.fs.ensureDir src.dropLast
      if failP i then
        { st with
          fs := fs1
          failed := st.failed ++ [entry]
          out := st.out ++ ["Failed to restore " ++ pathStr dest ++ " -> " ++ pathStr src] }
      else
        { st with
          fs := fs1.moveFile dest src
          out := st.out ++ ["Restored: " ++ pathStr dest ++ " -> " ++ pathStr src] }
    else
      { st with out := st.out ++ ["Skipped (missing destination): " ++ pathStr dest] }

/-- Fold the undo loop over a list of entries, threading the reverse position. -/
def undoFold (failP : Nat → Bool) : Nat → UndoSt → List LogEntry → UndoSt
  | _, st, [] => st
  | i, st, e :: rest => undoFold failP (i + 1) (undoStep failP i st e) rest

/-- Final phase of `undo_moves`: on no failures remove the log file,
otherwise write back the collected failed entries in original chronological
order via `write_log`. -/
def undoFinish (output_folder : FPath) (st : UndoSt) : World :=
  if st.failed.isEmpty then
    { fs := st.fs.removeFile (logPath output_folder)
      out := st.out ++ ["Undo complete. Log removed."] }
  else
    { fs := write_log st.fs output_folder st.failed.reverse
      out := st.out ++ ["Undo finished with some failures. Remaining failed entries saved to log."] }

/-- Model of `undo_moves`: load the log, process its entries in reverse
order, then remove the log on full success or re-persist the failed entries
otherwise. -/
def undo_moves (failP : Nat → Bool) (w : World) (output_folder : FPath) : World :=
  if (load_log w.fs output_folder).isEmpty then
    { w with out := w.out ++ ["No log entries found to undo."] }
  else
    undoFinish output_folder
      (undoFold failP 0 { fs := w.fs, failed := [], out := w.out }
        (load_log w.fs output_folder).reverse)

/-- Model of `counts[category] = counts.get(category, 0) + 1` on an ordered
association list (Python dicts preserve insertion order). -/
def bumpCount (counts : List (String × Nat)) (cat : String) : List (String × Nat) :=
  if counts.any (fun e => decide (e.1 = cat)) then
    counts.map (fun e => if e.1 = cat then (e.1, e.2 + 1) else e)
  else counts ++ [(cat, 1)]

/-- State of the organize loop: the filesystem, the records created so far,
the per-category counters, the skip counter, the scanned-file counter, and
the console output. -/
structure OrgSt where
  fs : FS
  moved : List LogEntry
  counts : List (String × Nat)
  skipped : Nat
  total : Nat
  out : List String
deriving DecidableEq

/-- One iteration of the organize loop over a directory entry name. -/
def orgStep (tsf : Nat → String) (failMove : Nat → Bool) (source_folder output_folder : FPath)
    (dry_run : Bool) (st : OrgSt) (filename : String) : OrgSt :=
  let file_path := source_folder ++ [filename]
  if st.fs.isdir file_path then st
  else
    let total' := st.total + 1
    let ext := toLowerF (splitextF filename).2
    let category := (get_category_for_extension ext).getD "Others"
    let dest_dir := output_folder ++ [category]
    let fs1 := st.fs.ensureDir dest_dir
    let dest_path := unique_dest_path fs1 dest_dir filename
    if dry_run then
      { st with
        fs := fs1
        total := total'
        out := st.out ++ ["[DRY RUN] Would move: " ++ pathStr file_path ++ " -> " ++ pathStr dest_path] }
    else if failMove total' then
      { st with
        fs := fs1
        total := total'
        skipped := st.skipped + 1
        out := st.out ++ ["Failed to move " ++ filename] }
    else
      { st with
        fs := fs1.moveFile file_path dest_path
        total := total'
        moved := st.moved ++ [{ timestamp := tsf st.moved.length, src := some file_path, dest := some dest_path }]
        counts := bumpCount st.counts category
        out := st.out ++ ["Moved: " ++ filename ++ " -> " ++ category ++ "/"] }

/-- The summary block printed at the end of `organize`. -/
def summaryLines (counts : List (String × Nat)) (total skipped : Nat) : List String :=
  ["--- summary ---"] ++ counts.map (fun e => e.1 ++ ": " ++ natRepr e.2) ++
  ["Total files scanned: " ++ natRepr total,
   "Skipped (failed or directories): " ++ natRepr skipped]

/-- Append the summary block to the loop state's console output. -/
def orgSummary (st : OrgSt) : OrgSt :=
  { st with out := st.out ++ summaryLines st.counts st.total st.skipped }

/-- Final phase of `organize`: persist the log when anything was moved and
report, otherwise report that nothing was moved. -/
def orgFinish (output_folder : FPath) (st : OrgSt) : World × List LogEntry :=
  if st.moved.isEmpty then
    ({ fs := st.fs, out := st.out ++ ["No files were moved (dry run or nothing to move)."] }, st.moved)
  else
    ({ fs := write_log st.fs output_folder st.moved
       out := st.out ++ ["Log saved to: " ++ pathStr (logPath output_folder)] }, st.moved)

/-- Model of `organize`: guard on the source folder, create the output
folder, fold the per-file loop over the directory listing, print the
summary, and persist the log when anything was moved.  Returns the new world
and the records created this run. -/
def organize (tsf : Nat → String) (failMove : Nat → Bool) (w : World)
    (source_folder output_folder : FPath) (dry_run : Bool) : World × List LogEntry :=
  if w.fs.pathExistsB source_folder = false then
    ({ w with out := w.out ++ ["Source folder does not exist: " ++ pathStr source_folder] }, [])
  else
    orgFinish output_folder
      (orgSummary
        (((w.fs.ensureDir output_folder).listdir source_folder).foldl
          (orgStep tsf failMove source_folder output_folder dry_run)
          { fs := w.fs.ensureDir output_folder, moved := [], counts := [], skipped := 0,
            total := 0, out := w.out }))

/-- Bare association-list lookup used to reason about `FS.lookup`. -/
def lookupL (l : List (FPath × FileData)) (p : FPath) : Option FileData :=
  (l.find? (fun e => decide (e.1 = p))).map Prod.snd

/-- An abstract completed move: timestamp, source, destination and the moved
content.  Proof device for relating the organize run to the undo run. -/
structure Move where
  ts : String
  src : FPath
  dest : FPath
  content : FileData
deriving DecidableEq

/-- The log record created for a completed move. -/
def toEntry (m : Move) : LogEntry :=
  { timestamp := m.ts, src := some m.src, dest := some m.dest }

/-- Replay a list of moves on a filesystem. -/
def applyMoves (fs : FS) (ms : List Move) : FS :=
  ms.foldl (fun f m => f.moveFile m.src m.dest) fs

/-- A move sequence is valid from `fs` when every move finds its content at
its source and a free destination at the moment it runs. -/
def validSeq : FS → List Move → Prop
  | _, [] => True
  | fs, m :: rest =>
    fs.lookup m.src = some m.content ∧ fs.lookup m.dest = none ∧
      validSeq (fs.moveFile m.src m.dest) rest

/-- Loop invariant of the organize fold (proof device): the records created
so far come from a valid move sequence `ms` that replays to the current
filesystem; every move took a direct child of the source to a two-component
path under the output folder; directories only grow; and files belonging to
still-unprocessed names are untouched unless a directory has appeared at
their path. -/
def OrgInv (s o : FPath) (fsInit : FS) (st : OrgSt) (remaining : List String) : Prop :=
  ∃ ms : List Move,
    st.moved = ms.map toEntry ∧
    validSeq fsInit ms ∧
    (∀ p, st.fs.lookup p = (applyMoves fsInit ms).lookup p) ∧
    fsInit.dirs ⊆ st.fs.dirs ∧
    (∀ m ∈ ms, (∃ n : String, m.src = s ++ [n]) ∧ fsInit.lookup m.src = some m.content ∧
      (∃ cat nm : String, m.dest = o ++ [cat, nm])) ∧
    (∀ n ∈ remaining, (s ++ [n]) ∉ st.fs.dirs →
      ∀ c, fsInit.lookup (s ++ [n]) = some c → st.fs.lookup (s ++ [n]) = some c)

/-- First log record of the partial-undo scenario. -/
def entryA : LogEntry :=
  { timestamp := "t1", src := some ["s", "a.txt"], dest := some ["o", "Documents", "a.txt"] }

/-- Second log record of the partial-undo scenario. -/
def entryB : LogEntry :=
  { timestamp := "t2", src := some ["s", "b.txt"], dest := some ["o", "Documents", "b.txt"] }

/-- World after an organize run that moved two files, with the log persisted:
the input of the partial-undo scenario. -/
def bugWorld : World :=
  { fs := { files := [(["o", "Documents", "a.txt"], FileData.blob 1),
                      (["o", "Documents", "b.txt"], FileData.blob 2),
                      (["o", LOG_FILENAME], FileData.log [entryA, entryB])]
            dirs := [["s"], ["o"], ["o", "Documents"]] }
    out := [] }

/-- World with one source file and no output folder yet: the input of the
dry-run scenario. -/
def dryWorld : World :=
  { fs := { files := [(["s", "a.txt"], FileData.blob 0)], dirs := [["s"]] }, out := [] }

/-- Value of a decimal digit character (proof device). -/
def decDigit (c : Char) : Nat := c.toNat - 48

/-- Decode a digit string back to a number (proof device inverse of decimal
rendering). -/
def fromDec (cs : List Char) : Nat := cs.foldl (fun a c => a * 10 + decDigit c) 0

/-- World with two source files of different categories: the input of the
round-trip scenario. -/
def rtWorld : World :=
  { fs := { files := [(["s", "a.txt"], FileData.blob 10), (["s", "a.jpg"], FileData.blob 20)]
            dirs := [["s"]] }
    out := [] }

/-! ### Basic lookup lemmas -/

theorem lookupL_nil (p : FPath) : lookupL [] p = none := rfl

theorem lookupL_cons (e : FPath × FileData) (l : List (FPath × FileData)) (p : FPath) :
    lookupL (e :: l) p = if e.1 = p then some e.2 else lookupL l p := by
  by_cases h : e.1 = p
  · simp [lookupL, List.find?_cons_of_pos _ (show decide (e.1 = p) = true by simp [h]), h]
  · simp [lookupL, List.find?_cons_of_neg _ (show ¬ decide (e.1 = p) = true by simp [h]), h]

theorem lookupL_append (l1 l2 : List (FPath × FileData)) (p : FPath) :
    lookupL (l1 ++ l2) p = (lookupL l1 p).or (lookupL l2 p) := by
  induction l1 with
  | nil => simp [lookupL_nil]
  | cons e l ih =>
    by_cases h : e.1 = p <;> simp [lookupL_cons, h, ih]

theorem lookupL_filter_keep {g : FPath × FileData → Bool} {q : FPath}
    (h : ∀ e : FPath × FileData, e.1 = q → g e = true) (l : List (FPath × FileData)) :
    lookupL (l.filter g) q = lookupL l q := by
  induction l with
  | nil => rfl
  | cons e l ih =>
    by_cases he : e.1 = q
    · simp [List.filter_cons, h e he, lookupL_cons, he, ih]
    · by_cases hg : g e <;> simp [List.filter_cons, hg, lookupL_cons, he, ih]

theorem lookupL_filter_drop {g : FPath × FileData → Bool} {q : FPath}
    (h : ∀ e : FPath × FileData, e.1 = q → g e = false) (l : List (FPath × FileData)) :
    lookupL (l.filter g) q = none := by
  induction l with
  | nil => rfl
  | cons e l ih =>
    by_cases hg : g e
    · have he : e.1 ≠ q := fun hq => by simp [h e hq] at hg
      simp [List.filter_cons, hg, lookupL_cons, he, ih]
    · simp [List.filter_cons, hg, ih]

theorem FS.lookup_def (fs : FS) (p : FPath) : fs.lookup p = lookupL fs.files p := rfl

theorem FS.setFile_files (fs : FS) (p : FPath) (d : FileData) :
    (fs.setFile p d).files = fs.files.filter (fun e => decide (e.1 ≠ p)) ++ [(p, d)] := rfl

theorem FS.removeFile_files (fs : FS) (p : FPath) :
    (fs.removeFile p).files = fs.files.filter (fun e => decide (e.1 ≠ p)) := rfl

theorem FS.lookup_setFile (fs : FS) (p : FPath) (d : FileData) (q : FPath) :
    (fs.setFile p d).lookup q = if q = p then some d else fs.lookup q := by
  rw [FS.lookup_def, FS.setFile_files, lookupL_append]
  by_cases h : q = p
  · subst h
    rw [lookupL_filter_drop (by intro e he; simp [he])]
    simp [lookupL_cons]
  · rw [lookupL_filter_keep (by intro e he; simpa [he] using h)]
    simp [lookupL_cons, h, Ne.symm h, FS.lookup_def, lookupL_nil]

theorem FS.lookup_removeFile (fs : FS) (p : FPath) (q : FPath) :
    (fs.removeFile p).lookup q = if q = p then none else fs.lookup q := by
  rw [FS.lookup_def, FS.removeFile_files]
  by_cases h : q = p
  · subst h
    rw [lookupL_filter_drop (by intro e he; simp [he])]
    simp
  · rw [lookupL_filter_keep (by intro e he; simpa [he] using h)]
    simp [h, FS.lookup_def]

theorem FS.moveFile_of_none {fs : FS} {a : FPath} (h : fs.lookup a = none) (b : FPath) :
    fs.moveFile a b = fs := by
  have hf : fs.files.find? (fun e => decide (e.1 = a)) = none := by
    cases hx : fs.files.find? (fun e => decide (e.1 = a)) with
    | none => rfl
    | some e => rw [FS.lookup_def, lookupL, hx] at h; cases h
  unfold FS.moveFile
  rw [hf]

theorem FS.lookup_moveFile_of_some {fs : FS} {a : FPath} {c : FileData}
    (h : fs.lookup a = some c) (b q : FPath) :
    (fs.moveFile a b).lookup q =
      if q = b then some c else if q = a then none else fs.lookup q := by
  cases hx : fs.files.find? (fun e => decide (e.1 = a)) with
  | none => rw [FS.lookup_def, lookupL, hx] at h; cases h
  | some e =>
    have hc : e.2 = c := by
      rw [FS.lookup_def, lookupL, hx] at h
      simpa using h
    have hfiles : (fs.moveFile a b).files =
        fs.files.filter (fun x => decide (x.1 ≠ a) && decide (x.1 ≠ b)) ++ [(b, e.2)] := by
      unfold FS.moveFile
      rw [hx]
    rw [FS.lookup_def, hfiles, lookupL_append]
    by_cases hqb : q = b
    · subst hqb
      rw [lookupL_filter_drop (by intro x hxq; simp [hxq])]
      simp [lookupL_cons, hc]
    · by_cases hqa : q = a
      · subst hqa
        rw [lookupL_filter_drop (by intro x hxq; simp [hxq])]
        simp [lookupL_cons, lookupL_nil, Ne.symm hqb, hqb]
      · rw [lookupL_filter_keep (by intro x hxq; simp [hxq, hqa, hqb])]
        simp [lookupL_cons, lookupL_nil, Ne.symm hqb, hqb, hqa, FS.lookup_def]

theorem FS.moveFile_dirs (fs : FS) (a b : FPath) : (fs.moveFile a b).dirs = fs.dirs := by
  unfold FS.moveFile
  cases fs.files.find? (fun e => decide (e.1 = a)) <;> rfl

theorem FS.setFile_dirs (fs : FS) (p : FPath) (d : FileData) : (fs.setFile p d).dirs = fs.dirs := rfl

theorem FS.removeFile_dirs (fs : FS) (p : FPath) : (fs.removeFile p).dirs = fs.dirs := rfl

theorem FS.ensureDir_files (fs : FS) (p : FPath) : (fs.ensureDir p).files = fs.files := rfl

theorem FS.lookup_ensureDir (fs : FS) (p q : FPath) : (fs.ensureDir p).lookup q = fs.lookup q := rfl

theorem FS.ensureDir_dirs_subset (fs : FS) (p : FPath) : fs.dirs ⊆ (fs.ensureDir p).dirs := by
  intro d hd
  unfold FS.ensureDir
  simp only [List.mem_append]
  exact Or.inl hd

theorem FS.lookup_mem {fs : FS} {p : FPath} {c : FileData} (h : fs.lookup p = some c) :
    (p, c) ∈ fs.files := by
  rw [FS.lookup_def, lookupL] at h
  cases hx : fs.files.find? (fun e => decide (e.1 = p)) with
  | none => rw [hx] at h; cases h
  | some e =>
    have hm := List.mem_of_find?_eq_some hx
    have he : e.1 = p := by have := List.find?_some hx; simpa using this
    have hc : e.2 = c := by rw [hx] at h; simpa using h
    have : e = (p, c) := Prod.ext he hc
    exact this ▸ hm

theorem FS.pathExistsB_of_lookup {fs : FS} {p : FPath} {c : FileData} (h : fs.lookup p = some c) :
    fs.pathExistsB p = true := by
  unfold FS.pathExistsB pathsList
  simp [List.mem_append]
  exact Or.inl ⟨c, FS.lookup_mem h⟩

theorem FS.lookup_eq_none_of_not_mem {fs : FS} {p : FPath}
    (h : ∀ c : FileData, (p, c) ∉ fs.files) : fs.lookup p = none := by
  rw [FS.lookup_def, lookupL]
  have : fs.files.find? (fun e => decide (e.1 = p)) = none := by
    rw [List.find?_eq_none]
    intro x hx hdx
    have hxp : x.1 = p := by simpa using hdx
    exact h x.2 (by rw [← hxp]; exact hx)
  rw [this]
  rfl

theorem FS.pathExistsB_false_parts {fs : FS} {p : FPath} (h : fs.pathExistsB p = false) :
    fs.lookup p = none ∧ p ∉ fs.dirs := by
  unfold FS.pathExistsB pathsList at h
  simp [List.mem_append] at h
  exact ⟨FS.lookup_eq_none_of_not_mem h.1, h.2⟩

theorem FS.moveFile_lookup_congr {fs fs2 : FS} (h : ∀ p, fs.lookup p = fs2.lookup p)
    (a b q : FPath) : (fs.moveFile a b).lookup q = (fs2.moveFile a b).lookup q := by
  cases hc : fs.lookup a with
  | none =>
    rw [FS.moveFile_of_none hc, FS.moveFile_of_none ((h a).symm.trans hc ▸ rfl)]
    exact h q
  | some c =>
    rw [FS.lookup_moveFile_of_some hc, FS.lookup_moveFile_of_some ((h a) ▸ hc)]
    by_cases hqb : q = b
    · simp [hqb]
    · by_cases hqa : q = a <;> simp [hqa, hqb, h q]

theorem FS.move_move_cancel {fs : FS} {a b : FPath} (hb : fs.lookup b = none) (q : FPath) :
    ((fs.moveFile a b).moveFile b a).lookup q = fs.lookup q := by
  cases hc : fs.lookup a with
  | none =>
    rw [FS.moveFile_of_none hc, FS.moveFile_of_none hb]
  | some c =>
    have hab : a ≠ b := by
      intro h
      rw [h, hb] at hc
      cases hc
    have h1 : (fs.moveFile a b).lookup b = some c := by
      rw [FS.lookup_moveFile_of_some hc]
      simp
    rw [FS.lookup_moveFile_of_some h1]
    by_cases hqa : q = a
    · simp [hqa, hc.symm]
    · by_cases hqb : q = b
      · simp [hqa, hqb, hb.symm, Ne.symm hab]
      · simp [hqa, hqb]
        rw [FS.lookup_moveFile_of_some hc]
        simp [hqa, hqb]

/-! ### Move-sequence replay lemmas -/

theorem applyMoves_nil (fs : FS) : applyMoves fs [] = fs := rfl

theorem applyMoves_cons (fs : FS) (m : Move) (ms : List Move) :
    applyMoves fs (m :: ms) = applyMoves (fs.moveFile m.src m.dest) ms := rfl

theorem applyMoves_append (fs : FS) (ms1 ms2 : List Move) :
    applyMoves fs (ms1 ++ ms2) = applyMoves (applyMoves fs ms1) ms2 := by
  unfold applyMoves
  exact List.foldl_append _ _ _ _

theorem applyMoves_lookup_congr {fs fs2 : FS} (h : ∀ p, fs.lookup p = fs2.lookup p)
    (ms : List Move) : ∀ p, (applyMoves fs ms).lookup p = (applyMoves fs2 ms).lookup p := by
  induction ms generalizing fs fs2 with
  | nil => exact h
  | cons m ms ih =>
    rw [applyMoves_cons, applyMoves_cons]
    exact ih (fun p => FS.moveFile_lookup_congr h m.src m.dest p)

theorem validSeq_congr {fs fs2 : FS} (h : ∀ p, fs.lookup p = fs2.lookup p) :
    ∀ ms : List Move, validSeq fs ms → validSeq fs2 ms := by
  intro ms
  induction ms generalizing fs fs2 with
  | nil => intro _; trivial
  | cons m ms ih =>
    intro hv
    obtain ⟨h1, h2, h3⟩ := hv
    refine ⟨by rw [← h m.src]; exact h1, by rw [← h m.dest]; exact h2, ?_⟩
    exact ih (fun p => FS.moveFile_lookup_congr h m.src m.dest p) h3

theorem validSeq_snoc {m : Move} :
    ∀ (ms : List Move) (fs : FS), validSeq fs ms →
      (applyMoves fs ms).lookup m.src = some m.content →
      (applyMoves fs ms).lookup m.dest = none →
      validSeq fs (ms ++ [m]) := by
  intro ms
  induction ms with
  | nil => exact fun fs _ h1 h2 => ⟨h1, h2, trivial⟩
  | cons m0 ms ih =>
    intro fs hv h1 h2
    obtain ⟨a, b, c⟩ := hv
    exact ⟨a, b, ih _ c h1 h2⟩

theorem applyMoves_lookup_untouched {q : FPath} :
    ∀ (ms : List Move) (fs : FS), (∀ m ∈ ms, q ≠ m.src ∧ q ≠ m.dest) →
      (applyMoves fs ms).lookup q = fs.lookup q := by
  intro ms
  induction ms with
  | nil => intro fs _; rfl
  | cons m ms ih =>
    intro fs h
    rw [applyMoves_cons, ih _ (fun m2 hm2 => h m2 (List.mem_cons_of_mem _ hm2))]
    have hq := h m (List.mem_cons_self _ _)
    cases hc : fs.lookup m.src with
    | none => rw [FS.moveFile_of_none hc]
    | some c =>
      rw [FS.lookup_moveFile_of_some hc]
      simp [hq.1, hq.2]

theorem FS.setFile_moveFile_commute (fs : FS) {lp src dest : FPath} (d : FileData)
    (h1 : lp ≠ src) (h2 : lp ≠ dest) (p : FPath) :
    ((fs.setFile lp d).moveFile src dest).lookup p = ((fs.moveFile src dest).setFile lp d).lookup p := by
  cases hc : fs.lookup src with
  | none =>
    have hc2 : (fs.setFile lp d).lookup src = none := by
      rw [FS.lookup_setFile]
      simp [Ne.symm h1, hc]
    rw [FS.moveFile_of_none hc2, FS.moveFile_of_none hc]
  | some c =>
    have hc2 : (fs.setFile lp d).lookup src = some c := by
      rw [FS.lookup_setFile]
      simp [Ne.symm h1, hc]
    rw [FS.lookup_moveFile_of_some hc2, FS.lookup_setFile (fs.moveFile src dest) lp d p]
    by_cases hplp : p = lp
    · subst hplp
      rw [if_pos rfl, if_neg h2, if_neg h1, FS.lookup_setFile]
      simp
    · rw [if_neg hplp, FS.lookup_moveFile_of_some hc]
      by_cases hpd : p = dest
      · simp [hpd]
      · by_cases hps : p = src
        · simp [hpd, hps]
        · rw [if_neg hpd, if_neg hps, if_neg hpd, if_neg hps, FS.lookup_setFile]
          simp [hplp]

theorem validSeq_setFile (lp : FPath) (d : FileData) :
    ∀ (ms : List Move) (fs : FS), (∀ m ∈ ms, lp ≠ m.src ∧ lp ≠ m.dest) →
      validSeq fs ms →
      validSeq (fs.setFile lp d) ms ∧
      (∀ p, (applyMoves (fs.setFile lp d) ms).lookup p = ((applyMoves fs ms).setFile lp d).lookup p) := by
  intro ms
  induction ms with
  | nil => exact fun fs _ _ => ⟨trivial, fun p => rfl⟩
  | cons m ms ih =>
    intro fs hlp hv
    obtain ⟨h1, h2, h3⟩ := hv
    have hm := hlp m (List.mem_cons_self _ _)
    have hsrc : (fs.setFile lp d).lookup m.src = some m.content := by
      rw [FS.lookup_setFile]
      simp [Ne.symm hm.1, h1]
    have hdest : (fs.setFile lp d).lookup m.dest = none := by
      rw [FS.lookup_setFile]
      simp [Ne.symm hm.2, h2]
    have hcomm := fun p => FS.setFile_moveFile_commute fs d hm.1 hm.2 p
    have hrest := ih (fs.moveFile m.src m.dest) (fun m2 hm2 => hlp m2 (List.mem_cons_of_mem _ hm2)) h3
    refine ⟨⟨hsrc, hdest, ?_⟩, ?_⟩
    · exact validSeq_congr (fun p => (hcomm p).symm) ms hrest.1
    · intro p
      rw [applyMoves_cons, applyMoves_cons]
      rw [applyMoves_lookup_congr hcomm ms p]
      exact hrest.2 p

/-! ### Undo loop lemmas -/

theorem undoFold_nil (f : Nat → Bool) (i : Nat) (st : UndoSt) : undoFold f i st [] = st := rfl

theorem undoFold_cons (f : Nat → Bool) (i : Nat) (st : UndoSt) (e : LogEntry) (l : List LogEntry) :
    undoFold f i st (e :: l) = undoFold f (i + 1) (undoStep f i st e) l := rfl

theorem undoFold_append (f : Nat → Bool) :
    ∀ (l1 l2 : List LogEntry) (i : Nat) (st : UndoSt),
      undoFold f i st (l1 ++ l2) = undoFold f (i + l1.length) (undoFold f i st l1) l2 := by
  intro l1
  induction l1 with
  | nil => intro l2 i st; simp [undoFold_nil]
  | cons e l ih =>
    intro l2 i st
    rw [List.cons_append, undoFold_cons, ih, undoFold_cons]
    have harith : i + 1 + l.length = i + (e :: l).length := by
      simp [List.length_cons]
      omega
    rw [harith]

theorem falsyPath_some_ne {p : FPath} (h : p ≠ []) : falsyPath (some p) = false := by
  cases p with
  | nil => exact absurd rfl h
  | cons a l => rfl

theorem toEntry_src (m : Move) : (toEntry m).src = some m.src := rfl

theorem toEntry_dest (m : Move) : (toEntry m).dest = some m.dest := rfl

theorem undoStep_restore {f : Nat → Bool} {i : Nat} {st : UndoSt} {m : Move}
    (hsrc : m.src ≠ []) (hdest : m.dest ≠ [])
    (hex : st.fs.pathExistsB m.dest = true) (hfail : f i = false) :
    undoStep f i st (toEntry m) =
      { st with fs := (st.fs.ensureDir m.src.dropLast).moveFile m.dest m.src,
                out := st.out ++ ["Restored: " ++ pathStr m.dest ++ " -> " ++ pathStr m.src] } := by
  unfold undoStep
  rw [toEntry_src, toEntry_dest, falsyPath_some_ne hsrc, falsyPath_some_ne hdest]
  simp only [Bool.or_self, Bool.false_or, if_false, Option.getD_some, hex, if_true, hfail]
  rfl

theorem undo_unwind :
    ∀ (ms : List Move) (fs : FS) (st : UndoSt) (i : Nat),
      validSeq fs ms →
      (∀ m ∈ ms, m.src ≠ [] ∧ m.dest ≠ []) →
      (∀ p, st.fs.lookup p = (applyMoves fs ms).lookup p) →
      (undoFold (fun _ => false) i st ((ms.map toEntry).reverse)).failed = st.failed ∧
      ∀ p, (undoFold (fun _ => false) i st ((ms.map toEntry).reverse)).fs.lookup p = fs.lookup p := by
  intro ms
  induction ms with
  | nil =>
    intro fs st i _ _ hst
    exact ⟨rfl, hst⟩
  | cons m ms ih =>
    intro fs st i hv hne hst
    obtain ⟨hsrc, hdest, hrest⟩ := hv
    have hm := hne m (List.mem_cons_self _ _)
    rw [List.map_cons, List.reverse_cons, undoFold_append]
    have hIH := ih (fs.moveFile m.src m.dest) st i hrest
      (fun m2 hm2 => hne m2 (List.mem_cons_of_mem _ hm2))
      (by rw [← applyMoves_cons]; exact hst)
    obtain ⟨hfail1, hfs1⟩ := hIH
    have hlookdest : (undoFold (fun _ => false) i st ((ms.map toEntry).reverse)).fs.lookup m.dest = some m.content := by
      rw [hfs1 m.dest, FS.lookup_moveFile_of_some hsrc]
      simp
    have hex := FS.pathExistsB_of_lookup hlookdest
    rw [undoFold_cons, undoFold_nil,
      undoStep_restore hm.1 hm.2 hex rfl]
    constructor
    · exact hfail1
    · intro p
      have hcong : ∀ q, ((undoFold (fun _ => false) i st ((ms.map toEntry).reverse)).fs.ensureDir m.src.dropLast).lookup q = (fs.moveFile m.src m.dest).lookup q := by
        intro q
        rw [FS.lookup_ensureDir]
        exact hfs1 q
      have := FS.moveFile_lookup_congr hcong m.dest m.src p
      rw [this]
      exact FS.move_move_cancel hdest p

/-! ### Decimal rendering, splitext, and candidate injectivity -/

theorem fromDec_append (l : List Char) (c : Char) :
    fromDec (l ++ [c]) = 10 * fromDec l + decDigit c := by
  unfold fromDec
  rw [List.foldl_append]
  simp [Nat.mul_comm]

theorem decDigit_digitChar : ∀ d : Nat, d < 10 → decDigit (Nat.digitChar d) = d := by decide

theorem fromDec_natReprAux : ∀ fuel n : Nat, n < fuel → fromDec (natReprAux fuel n) = n := by
  intro fuel
  induction fuel with
  | zero => intro n h; omega
  | succ fuel ih =>
    intro n h
    by_cases h10 : n < 10
    · simp [natReprAux, h10, fromDec, decDigit_digitChar n h10]
    · have hdiv : n / 10 < fuel := by
        have : n / 10 < n := Nat.div_lt_self (by omega) (by omega)
        omega
      simp only [natReprAux, h10, if_false]
      rw [fromDec_append, ih _ hdiv]
      have hmod := Nat.div_add_mod n 10
      have hm : n % 10 < 10 := Nat.mod_lt _ (by omega)
      rw [decDigit_digitChar _ hm]
      omega

theorem natReprAux_ne_nil (n : Nat) : natReprAux (n + 1) n ≠ [] := by
  by_cases h : n < 10 <;> simp [natReprAux, h]

theorem natRepr_inj {a b : Nat} (h : (natRepr a).data = (natRepr b).data) : a = b := by
  have ha := fromDec_natReprAux (a + 1) a (by omega)
  have hb := fromDec_natReprAux (b + 1) b (by omega)
  rw [show (natRepr a).data = natReprAux (a + 1) a from rfl,
    show (natRepr b).data = natReprAux (b + 1) b from rfl] at h
  rw [← ha, ← hb, h]

theorem spanNeqDot_append : ∀ l : List Char, (spanNeqDot l).1 ++ (spanNeqDot l).2 = l := by
  intro l
  induction l with
  | nil => rfl
  | cons c cs ih =>
    by_cases h : c = '.'
    · simp [spanNeqDot, h]
    · simpa [spanNeqDot, h] using ih

theorem splitext_data (s : String) :
    ((splitextF s).1).data ++ ((splitextF s).2).data = s.data := by
  unfold splitextF
  cases hsp : (spanNeqDot s.data.reverse).2 with
  | nil => simp
  | cons c revBase =>
    have happ := spanNeqDot_append s.data.reverse
    rw [hsp] at happ
    have hs : s.data = revBase.reverse ++ c :: (spanNeqDot s.data.reverse).1.reverse := by
      have := congrArg List.reverse happ
      simpa [List.reverse_append] using this.symm
    by_cases hany : revBase.reverse.any (fun ch => decide (ch ≠ '.')) = true
    · simp only [hany, if_true]
      exact hs.symm
    · simp only [hany, if_false]
      simp

theorem uniqueCandidate_data_succ (f : String) (k : Nat) :
    (uniqueCandidate f (k + 1)).data =
      ((splitextF f).1).data ++ '(' :: ((natRepr (k + 1)).data ++ ')' :: ((splitextF f).2).data) := by
  show ((splitextF f).1 ++ "(" ++ natRepr (k + 1) ++ ")" ++ (splitextF f).2).data = _
  rw [String.data_append, String.data_append, String.data_append, String.data_append]
  rw [show ("(" : String).data = ['('] from rfl, show (")" : String).data = [')'] from rfl]
  simp [List.append_assoc]

theorem natRepr_data_ne_nil (n : Nat) : (natRepr n).data ≠ [] := natReprAux_ne_nil n

theorem uniqueCandidate_inj (f : String) : ∀ {j k : Nat},
    uniqueCandidate f j = uniqueCandidate f k → j = k := by
  have hsplit := congrArg List.length (splitext_data f)
  intro j k h
  have hd := congrArg String.data h
  match j, k with
  | 0, 0 => rfl
  | 0, k + 1 =>
    exfalso
    rw [show (uniqueCandidate f 0).data = f.data from rfl, uniqueCandidate_data_succ] at hd
    have hlen := congrArg List.length hd
    have hpos : 0 < (natRepr (k + 1)).data.length :=
      List.length_pos.mpr (natRepr_data_ne_nil (k + 1))
    simp [List.length_append] at hlen hsplit
    omega
  | j + 1, 0 =>
    exfalso
    rw [show (uniqueCandidate f 0).data = f.data from rfl, uniqueCandidate_data_succ] at hd
    have hlen := congrArg List.length hd
    have hpos : 0 < (natRepr (j + 1)).data.length :=
      List.length_pos.mpr (natRepr_data_ne_nil (j + 1))
    simp [List.length_append] at hlen hsplit
    omega
  | j + 1, k + 1 =>
    rw [uniqueCandidate_data_succ, uniqueCandidate_data_succ] at hd
    have h2 := List.append_cancel_left hd
    injection h2 with _ h3
    have h4 := List.append_cancel_right h3
    have := natRepr_inj h4
    omega

theorem exists_free_candidate (fs : FS) (d : FPath) (f : String) :
    ∃ j, j < (pathsList fs).length + 1 ∧ fs.pathExistsB (d ++ [uniqueCandidate f j]) = false := by
  by_contra hcon
  push_neg at hcon
  have hall : ∀ j, j < (pathsList fs).length + 1 → (d ++ [uniqueCandidate f j]) ∈ pathsList fs := by
    intro j hj
    have h := hcon j hj
    have htrue : fs.pathExistsB (d ++ [uniqueCandidate f j]) = true := by
      cases hx : fs.pathExistsB (d ++ [uniqueCandidate f j])
      · exact absurd hx h
      · rfl
    exact of_decide_eq_true htrue
  set N := (pathsList fs).length with hN
  have hinj : Set.InjOn (fun j => d ++ [uniqueCandidate f j]) (Finset.range (N + 1)) := by
    intro a _ b _ hab
    have hcand : uniqueCandidate f a = uniqueCandidate f b := by
      have := List.append_cancel_left hab
      simpa using this
    exact uniqueCandidate_inj f hcand
  have hcard : (Finset.image (fun j => d ++ [uniqueCandidate f j]) (Finset.range (N + 1))).card = N + 1 := by
    rw [Finset.card_image_of_injOn hinj, Finset.card_range]
  have hsub : Finset.image (fun j => d ++ [uniqueCandidate f j]) (Finset.range (N + 1)) ⊆ (pathsList fs).toFinset := by
    intro x hx
    rw [Finset.mem_image] at hx
    obtain ⟨j, hj, rfl⟩ := hx
    rw [List.mem_toFinset]
    exact hall j (Finset.mem_range.mp hj)
  have hle := Finset.card_le_card hsub
  have h2 := List.toFinset_card_le (pathsList fs)
  omega

theorem uniqueIdxAux_spec (fs : FS) (d : FPath) (f : String) :
    ∀ (fuel k0 : Nat),
      (∃ j, j < fuel ∧ fs.pathExistsB (d ++ [uniqueCandidate f (k0 + j)]) = false) →
      fs.pathExistsB (d ++ [uniqueCandidate f (uniqueIdxAux fs d f fuel k0)]) = false ∧
      k0 ≤ uniqueIdxAux fs d f fuel k0 ∧
      ∀ m, k0 ≤ m → m < uniqueIdxAux fs d f fuel k0 →
        fs.pathExistsB (d ++ [uniqueCandidate f m]) = true := by
  intro fuel
  induction fuel with
  | zero =>
    intro k0 h
    obtain ⟨j, hj, _⟩ := h
    omega
  | succ fuel ih =>
    intro k0 h
    by_cases h0 : fs.pathExistsB (d ++ [uniqueCandidate f k0]) = true
    · have hidx : uniqueIdxAux fs d f (fuel + 1) k0 = uniqueIdxAux fs d f fuel (k0 + 1) := by
        simp [uniqueIdxAux, h0]
      obtain ⟨j, hj, hfree⟩ := h
      have hj0 : j ≠ 0 := by
        intro hz
        subst hz
        rw [Nat.add_zero] at hfree
        rw [hfree] at h0
        cases h0
      obtain ⟨j2, rfl⟩ : ∃ j2, j = j2 + 1 := ⟨j - 1, by omega⟩
      have hex2 : ∃ j3, j3 < fuel ∧ fs.pathExistsB (d ++ [uniqueCandidate f (k0 + 1 + j3)]) = false := by
        refine ⟨j2, by omega, ?_⟩
        rw [show k0 + 1 + j2 = k0 + (j2 + 1) by omega]
        exact hfree
      have hi := ih (k0 + 1) hex2
      rw [hidx]
      refine ⟨hi.1, by have := hi.2.1; omega, ?_⟩
      intro m hm1 hm2
      by_cases hmk : m = k0
      · subst hmk
        exact h0
      · exact hi.2.2 m (by omega) hm2
    · have hfalse : fs.pathExistsB (d ++ [uniqueCandidate f k0]) = false := by
        cases hx : fs.pathExistsB (d ++ [uniqueCandidate f k0])
        · rfl
        · exact absurd hx h0
      have hidx : uniqueIdxAux fs d f (fuel + 1) k0 = k0 := by
        simp [uniqueIdxAux, hfalse]
      rw [hidx]
      exact ⟨hfalse, Nat.le_refl _, fun m hm1 hm2 => by omega⟩

theorem unique_dest_path_spec (fs : FS) (d : FPath) (f : String) :
    ∃ k, unique_dest_path fs d f = d ++ [uniqueCandidate f k] ∧
      fs.pathExistsB (d ++ [uniqueCandidate f k]) = false ∧
      (∀ j, j < k → fs.pathExistsB (d ++ [uniqueCandidate f j]) = true) ∧
      k ≤ (pathsList fs).length := by
  have hfree := exists_free_candidate fs d f
  have hspec := uniqueIdxAux_spec fs d f ((pathsList fs).length + 1) 0 (by simpa using hfree)
  refine ⟨uniqueIdxAux fs d f ((pathsList fs).length + 1) 0, rfl, hspec.1,
    fun j hj => hspec.2.2 j (by omega) hj, ?_⟩
  by_contra hk
  push_neg at hk
  obtain ⟨j, hj, hfree2⟩ := hfree
  have := hspec.2.2 j (by omega) (by omega)
  rw [this] at hfree2
  cases hfree2

/-! ### Log store lemmas -/

theorem FS.mem_ensureDir_self (fs : FS) {p : FPath} (h : p ≠ []) : p ∈ (fs.ensureDir p).dirs := by
  unfold FS.ensureDir
  rw [List.mem_append]
  by_cases hd : p ∈ fs.dirs
  · exact Or.inl hd
  · right
    rw [List.mem_filter]
    have hlen : 0 < p.length := List.length_pos.mpr h
    constructor
    · unfold ancestorsOf
      rw [List.mem_map]
      refine ⟨p.length - 1, ?_, ?_⟩
      · rw [List.mem_range]
        omega
      · rw [show p.length - 1 + 1 = p.length from by omega, List.take_length]
    · simpa using hd

theorem write_log_of_log {fs : FS} {out : FPath} {l : List LogEntry}
    (h : fs.lookup (logPath out) = some (FileData.log l)) (entries : List LogEntry) :
    write_log fs out entries = (fs.ensureDir out).setFile (logPath out) (FileData.log (l ++ entries)) := by
  unfold write_log
  rw [show (fs.ensureDir out).lookup (logPath out) = fs.lookup (logPath out) from rfl, h]

theorem write_log_of_not_log {fs : FS} {out : FPath}
    (h : ∀ l, fs.lookup (logPath out) ≠ some (FileData.log l)) (entries : List LogEntry) :
    write_log fs out entries = (fs.ensureDir out).setFile (logPath out) (FileData.log entries) := by
  unfold write_log
  rw [show (fs.ensureDir out).lookup (logPath out) = fs.lookup (logPath out) from rfl]
  cases hl : fs.lookup (logPath out) with
  | none => rfl
  | some d =>
    cases d with
    | blob id => rfl
    | junk => rfl
    | log l => exact absurd hl (h l)

/-! ### Claim C4 -/

/-- C4: path allocation returns `destDir/filename` when that path is free;
otherwise it returns the first of `name(1).ext`, `name(2).ext`, ... (counter
from 1) that does not exist.  The returned path never exists at allocation
time.  Allocation is a pure function of the filesystem (no side effects by
construction), and any filesystem with the same path-existence observations
(in particular, the unchanged one on repeated allocation) yields the same
path. -/
theorem c4_unique_dest_path_allocation (fs : FS) (d : FPath) (f : String) :
    (fs.pathExistsB (d ++ [f]) = false → unique_dest_path fs d f = d ++ [f]) ∧
    fs.pathExistsB (unique_dest_path fs d f) = false ∧
    (∃ k, unique_dest_path fs d f = d ++ [uniqueCandidate f k] ∧
      (∀ j, 0 < j → j < k → fs.pathExistsB (d ++ [uniqueCandidate f j]) = true) ∧
      (0 < k → fs.pathExistsB (d ++ [f]) = true)) ∧
    (∀ fs2 : FS, (∀ p, fs2.pathExistsB p = fs.pathExistsB p) →
      unique_dest_path fs2 d f = unique_dest_path fs d f) := by
  obtain ⟨k, hEq, hFree, hPrev, _⟩ := unique_dest_path_spec fs d f
  refine ⟨?_, ?_, ⟨k, hEq, fun j h1 h2 => hPrev j h2, fun hk => hPrev 0 hk⟩, ?_⟩
  · intro h0
    have hk0 : k = 0 := by
      by_contra hne
      have hh := hPrev 0 (by omega)
      rw [show uniqueCandidate f 0 = f from rfl] at hh
      rw [hh] at h0
      cases h0
    rw [hEq, hk0]
    rfl
  · rw [hEq]
    exact hFree
  · intro fs2 hsame
    obtain ⟨k2, hEq2, hFree2, hPrev2, _⟩ := unique_dest_path_spec fs2 d f
    have hkk : k2 = k := by
      rcases Nat.lt_trichotomy k2 k with hlt | heq | hgt
      · exfalso
        have := hPrev k2 hlt
        rw [← hsame] at this
        rw [this] at hFree2
        cases hFree2
      · exact heq
      · exfalso
        have := hPrev2 k hgt
        rw [hsame] at this
        rw [this] at hFree
        cases hFree
    rw [hEq2, hEq, hkk]

/-- C4 witness: allocation at a concrete filesystem where both the plain name
and the first suffixed name are taken. -/
theorem c4_unique_dest_path_allocation_witness :
    ((⟨[(["o", "r.txt"], FileData.blob 1), (["o", "r(1).txt"], FileData.blob 2)], [["o"]]⟩ : FS).pathExistsB
        (["o"] ++ ["r.txt"]) = true) ∧
    unique_dest_path ⟨[(["o", "r.txt"], FileData.blob 1), (["o", "r(1).txt"], FileData.blob 2)], [["o"]]⟩
        ["o"] "r.txt" = ["o", "r(2).txt"] ∧
    ((⟨[(["o", "r.txt"], FileData.blob 1)], [["o"]]⟩ : FS).pathExistsB (["o"] ++ ["s.txt"]) = false →
      unique_dest_path ⟨[(["o", "r.txt"], FileData.blob 1)], [["o"]]⟩ ["o"] "s.txt" = ["o"] ++ ["s.txt"]) := by
  refine ⟨by decide, by decide, ?_⟩
  exact (c4_unique_dest_path_allocation ⟨[(["o", "r.txt"], FileData.blob 1)], [["o"]]⟩ ["o"] "s.txt").1

/-! ### Claim C10 -/

/-- C10: the collision-avoidance loop terminates for every destination
directory and filename on any finite filesystem: the index `k` at which it
stops satisfies that all `k` earlier candidates are pairwise distinct
existing paths, so the loop examines at most one candidate more than the
number of existing colliding paths (and never more than the total number of
existing paths). -/
theorem c10_collision_loop_terminates (fs : FS) (d : FPath) (f : String) :
    ∃ k, unique_dest_path fs d f = d ++ [uniqueCandidate f k] ∧
      fs.pathExistsB (d ++ [uniqueCandidate f k]) = false ∧
      (∀ j, j < k → fs.pathExistsB (d ++ [uniqueCandidate f j]) = true) ∧
      ((List.range k).map (fun j => d ++ [uniqueCandidate f j])).Nodup ∧
      k ≤ ((pathsList fs).dedup.filter
        (fun p => decide (p ∈ (List.range k).map (fun j => d ++ [uniqueCandidate f j])))).length ∧
      k ≤ (pathsList fs).length := by
  obtain ⟨k, hEq, hFree, hPrev, hBound⟩ := unique_dest_path_spec fs d f
  have hinj : Function.Injective (fun j => d ++ [uniqueCandidate f j]) := by
    intro a b hab
    have hcand : uniqueCandidate f a = uniqueCandidate f b := by
      have := List.append_cancel_left hab
      simpa using this
    exact uniqueCandidate_inj f hcand
  have hnodup : ((List.range k).map (fun j => d ++ [uniqueCandidate f j])).Nodup :=
    (List.nodup_range k).map hinj
  refine ⟨k, hEq, hFree, hPrev, hnodup, ?_, hBound⟩
  set L := (List.range k).map (fun j => d ++ [uniqueCandidate f j]) with hL
  set Fl := (pathsList fs).dedup.filter (fun p => decide (p ∈ L)) with hFl
  have hsubset : ∀ x ∈ L, x ∈ Fl := by
    intro x hx
    rw [hFl, List.mem_filter]
    refine ⟨?_, by simpa using hx⟩
    rw [List.mem_dedup]
    rw [hL, List.mem_map] at hx
    obtain ⟨j, hj, rfl⟩ := hx
    rw [List.mem_range] at hj
    exact of_decide_eq_true (hPrev j hj)
  have hcard1 : L.toFinset.card = k := by
    rw [List.toFinset_card_of_nodup hnodup, hL, List.length_map, List.length_range]
  have hsub2 : L.toFinset ⊆ Fl.toFinset := by
    intro x hx
    rw [List.mem_toFinset] at hx
    rw [List.mem_toFinset]
    exact hsubset x hx
  have h3 := Finset.card_le_card hsub2
  have h4 := List.toFinset_card_le Fl
  omega

/-! ### Claim C6 -/

/-- C6: `write_log` persists exactly `existing ++ newEntries` when a valid
list is stored, and exactly `newEntries` otherwise; the write is a full
overwrite of the log file (its new content is exactly the merged list), no
other file is touched, and the output directory is created first. -/
theorem c6_write_log_merge (fs : FS) (out : FPath) (newEntries : List LogEntry) :
    (∀ l, fs.lookup (logPath out) = some (FileData.log l) →
      (write_log fs out newEntries).lookup (logPath out) = some (FileData.log (l ++ newEntries))) ∧
    ((∀ l, fs.lookup (logPath out) ≠ some (FileData.log l)) →
      (write_log fs out newEntries).lookup (logPath out) = some (FileData.log newEntries)) ∧
    (∀ p, p ≠ logPath out → (write_log fs out newEntries).lookup p = fs.lookup p) ∧
    (out ≠ [] → out ∈ (write_log fs out newEntries).dirs) := by
  refine ⟨?_, ?_, ?_, ?_⟩
  · intro l h
    rw [write_log_of_log h, FS.lookup_setFile]
    simp
  · intro h
    rw [write_log_of_not_log h, FS.lookup_setFile]
    simp
  · intro p hp
    by_cases hl : ∃ l, fs.lookup (logPath out) = some (FileData.log l)
    · obtain ⟨l, hl⟩ := hl
      rw [write_log_of_log hl, FS.lookup_setFile]
      simp [hp, FS.lookup_ensureDir]
    · push_neg at hl
      rw [write_log_of_not_log hl, FS.lookup_setFile]
      simp [hp, FS.lookup_ensureDir]
  · intro hout
    have hmem := FS.mem_ensureDir_self fs hout
    by_cases hl : ∃ l, fs.lookup (logPath out) = some (FileData.log l)
    · obtain ⟨l, hl⟩ := hl
      rw [write_log_of_log hl, FS.setFile_dirs]
      exact hmem
    · push_neg at hl
      rw [write_log_of_not_log hl, FS.setFile_dirs]
      exact hmem

/-- C6 witness: writing one new entry over a valid stored log, over a corrupt
log, and with no log present. -/
theorem c6_write_log_merge_witness :
    ((⟨[(["o", LOG_FILENAME], FileData.log [entryA])], [["o"]]⟩ : FS).lookup (logPath ["o"]) =
      some (FileData.log [entryA])) ∧
    (write_log ⟨[(["o", LOG_FILENAME], FileData.log [entryA])], [["o"]]⟩ ["o"] [entryB]).lookup
      (logPath ["o"]) = some (FileData.log ([entryA] ++ [entryB])) ∧
    (write_log ⟨[(["o", LOG_FILENAME], FileData.junk)], [["o"]]⟩ ["o"] [entryB]).lookup
      (logPath ["o"]) = some (FileData.log [entryB]) ∧
    (write_log ⟨[], []⟩ ["o"] [entryB]).lookup (logPath ["o"]) = some (FileData.log [entryB]) ∧
    (["o"] : FPath) ∈ (write_log ⟨[], []⟩ ["o"] [entryB]).dirs := by
  have h1 := (c6_write_log_merge ⟨[(["o", LOG_FILENAME], FileData.log [entryA])], [["o"]]⟩ ["o"] [entryB]).1
    [entryA] (by decide)
  have hjunk : ∀ l, (⟨[(["o", LOG_FILENAME], FileData.junk)], [["o"]]⟩ : FS).lookup (logPath ["o"]) ≠
      some (FileData.log l) := by
    intro l h
    rw [show (⟨[(["o", LOG_FILENAME], FileData.junk)], [["o"]]⟩ : FS).lookup (logPath ["o"]) =
      some FileData.junk from by decide] at h
    simp at h
  have hnone : ∀ l, (⟨[], []⟩ : FS).lookup (logPath ["o"]) ≠ some (FileData.log l) := by
    intro l h
    rw [show (⟨[], []⟩ : FS).lookup (logPath ["o"]) = none from by decide] at h
    simp at h
  have h2 := (c6_write_log_merge ⟨[(["o", LOG_FILENAME], FileData.junk)], [["o"]]⟩ ["o"] [entryB]).2.1 hjunk
  have h3 := (c6_write_log_merge ⟨[], []⟩ ["o"] [entryB]).2.1 hnone
  have h4 := (c6_write_log_merge ⟨[], []⟩ ["o"] [entryB]).2.2.2 (by decide)
  exact ⟨by decide, h1, h2, h3, h4⟩

/-! ### Organize loop case lemmas -/

theorem orgStep_isdir {tsf : Nat → String} {failMove : Nat → Bool} {s o : FPath} {dry : Bool}
    {st : OrgSt} {f : String} (h : st.fs.isdir (s ++ [f]) = true) :
    orgStep tsf failMove s o dry st f = st := by
  simp [orgStep, h]

theorem orgStep_move {tsf : Nat → String} {failMove : Nat → Bool} {s o : FPath}
    {st : OrgSt} {f : String} {cat : String} {dd dp : FPath}
    (hdir : st.fs.isdir (s ++ [f]) = false)
    (hfail : failMove (st.total + 1) = false)
    (hcat : (get_category_for_extension (toLowerF (splitextF f).2)).getD "Others" = cat)
    (hdd : o ++ [cat] = dd)
    (hdp : unique_dest_path (st.fs.ensureDir dd) dd f = dp) :
    orgStep tsf failMove s o false st f =
      { st with
        fs := (st.fs.ensureDir dd).moveFile (s ++ [f]) dp
        total := st.total + 1
        moved := st.moved ++ [{ timestamp := tsf st.moved.length, src := some (s ++ [f]), dest := some dp }]
        counts := bumpCount st.counts cat
        out := st.out ++ ["Moved: " ++ f ++ " -> " ++ cat ++ "/"] } := by
  subst hcat hdd hdp
  simp [orgStep, hdir, hfail]

theorem orgStep_dry_frame (tsf : Nat → String) (failMove : Nat → Bool) (s o : FPath)
    (st : OrgSt) (f : String) :
    ((orgStep tsf failMove s o true st f).fs.files = st.fs.files) ∧
    ((orgStep tsf failMove s o true st f).moved = st.moved) := by
  by_cases h : st.fs.isdir (s ++ [f]) = true
  · simp [orgStep_isdir h]
  · have hh : st.fs.isdir (s ++ [f]) = false := by
      cases hx : st.fs.isdir (s ++ [f])
      · rfl
      · exact absurd hx h
    simp [orgStep, hh, FS.ensureDir_files]

theorem orgFold_dry_frame (tsf : Nat → String) (failMove : Nat → Bool) (s o : FPath) :
    ∀ (names : List String) (st : OrgSt),
      ((names.foldl (orgStep tsf failMove s o true) st).fs.files = st.fs.files) ∧
      ((names.foldl (orgStep tsf failMove s o true) st).moved = st.moved) := by
  intro names
  induction names with
  | nil => exact fun st => ⟨rfl, rfl⟩
  | cons n ns ih =>
    intro st
    rw [List.foldl_cons]
    refine ⟨?_, ?_⟩
    · rw [(ih _).1, (orgStep_dry_frame tsf failMove s o st n).1]
    · rw [(ih _).2, (orgStep_dry_frame tsf failMove s o st n).2]

/-! ### Claim C2 -/

/-- C2 counterexample: with an existing source holding one file, a dry run
does create directories (the output folder and the category folder), so dry
run is not free of all filesystem mutation as the claim states. -/
theorem c2_dry_run_counterexample :
    ((["o"] : FPath) ∉ dryWorld.fs.dirs ∧ (["o", "Documents"] : FPath) ∉ dryWorld.fs.dirs) ∧
    ((["o"] : FPath) ∈ (organize (fun _ => "t") (fun _ => false) dryWorld ["s"] ["o"] true).1.fs.dirs ∧
     (["o", "Documents"] : FPath) ∈ (organize (fun _ => "t") (fun _ => false) dryWorld ["s"] ["o"] true).1.fs.dirs) := by
  exact ⟨by decide, by decide⟩

/-- C2 amended: a dry run moves no file and neither creates nor modifies the
log file — the file map is left exactly as it was and no records are
returned — though it does create the output directory and the category
subdirectories. -/
theorem c2_dry_run_no_file_mutation (tsf : Nat → String) (failMove : Nat → Bool) (w : World)
    (source_folder output_folder : FPath) :
    (organize tsf failMove w source_folder output_folder true).1.fs.files = w.fs.files ∧
    (organize tsf failMove w source_folder output_folder true).2 = [] := by
  unfold organize
  by_cases h : w.fs.pathExistsB source_folder = false
  · rw [if_pos h]
    exact ⟨rfl, rfl⟩
  · rw [if_neg h]
    have hfold := orgFold_dry_frame tsf failMove source_folder output_folder
      ((w.fs.ensureDir output_folder).listdir source_folder)
      { fs := w.fs.ensureDir output_folder, moved := [], counts := [], skipped := 0, total := 0, out := w.out }
    set st1 := ((w.fs.ensureDir output_folder).listdir source_folder).foldl
      (orgStep tsf failMove source_folder output_folder true)
      { fs := w.fs.ensureDir output_folder, moved := [], counts := [], skipped := 0, total := 0, out := w.out } with hst1
    have hsm : (orgSummary st1).moved = st1.moved := rfl
    have hsf : (orgSummary st1).fs = st1.fs := rfl
    unfold orgFinish
    rw [if_pos (by rw [hsm, hfold.2]; rfl)]
    refine ⟨?_, by rw [hsm, hfold.2]⟩
    rw [hsf, hfold.1]
    rfl

/-! ### Claim C7 -/

/-- C7: `load_log` returns the empty sequence when the log file is absent or
its content does not parse as an ordered list of records; as a total
function of the filesystem it never raises or propagates an error. -/
theorem c7_load_log_corrupt_or_missing (fs : FS) (out : FPath)
    (h : ∀ l, fs.lookup (logPath out) ≠ some (FileData.log l)) :
    load_log fs out = [] := by
  unfold load_log
  cases hl : fs.lookup (logPath out) with
  | none => rfl
  | some d =>
    cases d with
    | blob id => rfl
    | junk => rfl
    | log l => exact absurd hl (h l)

/-- C7 witness: a corrupt log file and a missing log file both load as the
empty sequence. -/
theorem c7_load_log_corrupt_or_missing_witness :
    (∀ l, (⟨[(["o", LOG_FILENAME], FileData.junk)], [["o"]]⟩ : FS).lookup (logPath ["o"]) ≠
      some (FileData.log l)) ∧
    load_log ⟨[(["o", LOG_FILENAME], FileData.junk)], [["o"]]⟩ ["o"] = [] ∧
    load_log ⟨[], []⟩ ["o"] = [] := by
  have hjunk : ∀ l, (⟨[(["o", LOG_FILENAME], FileData.junk)], [["o"]]⟩ : FS).lookup (logPath ["o"]) ≠
      some (FileData.log l) := by
    intro l h
    rw [show (⟨[(["o", LOG_FILENAME], FileData.junk)], [["o"]]⟩ : FS).lookup (logPath ["o"]) =
      some FileData.junk from by decide] at h
    simp at h
  have hnone : ∀ l, (⟨[], []⟩ : FS).lookup (logPath ["o"]) ≠ some (FileData.log l) := by
    intro l h
    rw [show (⟨[], []⟩ : FS).lookup (logPath ["o"]) = none from by decide] at h
    simp at h
  exact ⟨hjunk, c7_load_log_corrupt_or_missing _ _ hjunk, c7_load_log_corrupt_or_missing _ _ hnone⟩

/-! ### Claim C8 -/

/-- C8: when the source folder does not exist, `organize` prints a diagnostic
line, returns the empty list, and leaves the filesystem (and everything else
in the world except the console) exactly as it was; the condition is
reported, not thrown. -/
theorem c8_missing_source (tsf : Nat → String) (failMove : Nat → Bool) (w : World)
    (source_folder output_folder : FPath) (dry_run : Bool)
    (h : w.fs.pathExistsB source_folder = false) :
    organize tsf failMove w source_folder output_folder dry_run =
      ({ fs := w.fs, out := w.out ++ ["Source folder does not exist: " ++ pathStr source_folder] }, []) := by
  unfold organize
  rw [if_pos h]

/-- C8 witness: organizing from a missing source directory on a small
concrete world. -/
theorem c8_missing_source_witness :
    dryWorld.fs.pathExistsB ["missing"] = false ∧
    organize (fun _ => "t") (fun _ => false) dryWorld ["missing"] ["o"] false =
      ({ fs := dryWorld.fs, out := dryWorld.out ++ ["Source folder does not exist: " ++ pathStr ["missing"]] }, []) := by
  exact ⟨by decide, c8_missing_source _ _ _ _ _ _ (by decide)⟩

/-! ### Claim C9 -/

/-- C9: a log entry whose `src` or `dest` is missing, null, or empty is
silently skipped by the undo loop: the step changes nothing (no restore
attempt, no report, no failure record), and consequently when the rest of
the run succeeds the entry is not retained — undoing a log holding only such
an entry deletes the log file outright. -/
theorem c9_falsy_entry_skipped :
    (∀ (failP : Nat → Bool) (i : Nat) (st : UndoSt) (e : LogEntry),
      (falsyPath e.dest || falsyPath e.src) = true → undoStep failP i st e = st) ∧
    (∀ (failP : Nat → Bool) (w : World) (out : FPath) (e : LogEntry),
      (falsyPath e.dest || falsyPath e.src) = true →
      w.fs.lookup (logPath out) = some (FileData.log [e]) →
      (undo_moves failP w out).fs.lookup (logPath out) = none) := by
  have hstep : ∀ (failP : Nat → Bool) (i : Nat) (st : UndoSt) (e : LogEntry),
      (falsyPath e.dest || falsyPath e.src) = true → undoStep failP i st e = st := by
    intro failP i st e h
    unfold undoStep
    rw [h]
    rfl
  refine ⟨hstep, ?_⟩
  intro failP w out e h hlog
  unfold undo_moves
  have hload : load_log w.fs out = [e] := by
    unfold load_log
    rw [hlog]
  rw [hload]
  rw [if_neg (by simp)]
  rw [show ([e] : List LogEntry).reverse = [e] from rfl, undoFold_cons, undoFold_nil,
    hstep failP 0 { fs := w.fs, failed := [], out := w.out } e h]
  unfold undoFinish
  simp [FS.lookup_removeFile]

/-- C9 witness: an entry with a missing `src` and an entry with an empty
`dest` are both skipped, and a log holding only the first is deleted by
undo. -/
theorem c9_falsy_entry_skipped_witness :
    (falsyPath (LogEntry.mk "t" none (some ["o", "x"])).dest ||
      falsyPath (LogEntry.mk "t" none (some ["o", "x"])).src) = true ∧
    undoStep (fun _ => false) 0 { fs := dryWorld.fs, failed := [], out := [] }
      (LogEntry.mk "t" none (some ["o", "x"])) =
      { fs := dryWorld.fs, failed := [], out := [] } ∧
    undoStep (fun _ => false) 0 { fs := dryWorld.fs, failed := [], out := [] }
      (LogEntry.mk "t" (some ["s", "x"]) (some [])) =
      { fs := dryWorld.fs, failed := [], out := [] } ∧
    (undo_moves (fun _ => false)
      { fs := ⟨[(["o", LOG_FILENAME], FileData.log [LogEntry.mk "t" none (some ["o", "x"])])], [["o"]]⟩,
        out := [] } ["o"]).fs.lookup (logPath ["o"]) = none := by
  refine ⟨by decide, ?_, ?_, ?_⟩
  · exact c9_falsy_entry_skipped.1 (fun _ => false) 0 { fs := dryWorld.fs, failed := [], out := [] }
      (LogEntry.mk "t" none (some ["o", "x"])) (by decide)
  · exact c9_falsy_entry_skipped.1 (fun _ => false) 0 { fs := dryWorld.fs, failed := [], out := [] }
      (LogEntry.mk "t" (some ["s", "x"]) (some [])) (by decide)
  · exact c9_falsy_entry_skipped.2 (fun _ => false)
      { fs := ⟨[(["o", LOG_FILENAME], FileData.log [LogEntry.mk "t" none (some ["o", "x"])])], [["o"]]⟩,
        out := [] } ["o"] (LogEntry.mk "t" none (some ["o", "x"])) (by decide) (by decide)

/-! ### Claim C1 -/

/-- C1 exposes a code bug: undoing the two-entry log of `bugWorld` where the
later entry fails to restore and the earlier succeeds leaves the log file
holding `[entryA, entryB, entryB]` — the original log merged with the failed
entries by `write_log` — rather than exactly the failed entries `[entryB]`;
in particular the successfully reversed `entryA` is still recorded. -/
theorem c1_undo_log_merge_bug :
    (undo_moves (fun i => decide (i = 0)) bugWorld ["o"]).fs.lookup (logPath ["o"]) =
      some (FileData.log [entryA, entryB, entryB]) ∧
    ([entryA, entryB, entryB] : List LogEntry) ≠ [entryB] ∧
    entryA ∈ [entryA, entryB, entryB] := by
  refine ⟨by decide, by decide, by decide⟩

/-! ### Claim C5 -/

theorem findCat_none : ∀ (table : List (String × List String)) (ext : String),
    (∀ cat exts, (cat, exts) ∈ table → ext ∉ exts) → findCat table ext = none := by
  intro table
  induction table with
  | nil => intro ext _; rfl
  | cons ce rest ih =>
    intro ext h
    obtain ⟨cat, exts⟩ := ce
    unfold findCat
    rw [if_neg (h cat exts (List.mem_cons_self _ _))]
    exact ih ext (fun c e hm => h c e (List.mem_cons_of_mem _ hm))

/-- C5: the classifier is consulted on the lower-cased extension, every
extension absent from the fixed mapping classifies to `none`, and the
organize loop then routes the file to the sentinel `Others` subdirectory of
the output folder: its destination is `output/Others/<name>` and the created
record points there. -/
theorem c5_unknown_extension_to_others
    (tsf : Nat → String) (failMove : Nat → Bool) (source_folder output_folder : FPath)
    (st : OrgSt) (filename : String) (c : FileData)
    (hnotdir : st.fs.isdir (source_folder ++ [filename]) = false)
    (hunknown : ∀ ce ∈ FILE_TYPES, toLowerF (splitextF filename).2 ∉ ce.2)
    (hfail : failMove (st.total + 1) = false)
    (hfile : st.fs.lookup (source_folder ++ [filename]) = some c) :
    get_category_for_extension (toLowerF (splitextF filename).2) = none ∧
    ∃ nm, unique_dest_path (st.fs.ensureDir (output_folder ++ ["Others"]))
        (output_folder ++ ["Others"]) filename = output_folder ++ ["Others", nm] ∧
      (orgStep tsf failMove source_folder output_folder false st filename).fs.lookup
        (output_folder ++ ["Others", nm]) = some c ∧
      (orgStep tsf failMove source_folder output_folder false st filename).moved =
        st.moved ++ [{ timestamp := tsf st.moved.length,
                       src := some (source_folder ++ [filename]),
                       dest := some (output_folder ++ ["Others", nm]) }] := by
  have hcat0 : get_category_for_extension (toLowerF (splitextF filename).2) = none :=
    findCat_none FILE_TYPES _ (fun cat exts hm => hunknown (cat, exts) hm)
  have hcat : (get_category_for_extension (toLowerF (splitextF filename).2)).getD "Others" = "Others" := by
    rw [hcat0]
    rfl
  obtain ⟨k, hdp, hfree, _, _⟩ := unique_dest_path_spec
    (st.fs.ensureDir (output_folder ++ ["Others"])) (output_folder ++ ["Others"]) filename
  have hshape : (output_folder ++ ["Others"]) ++ [uniqueCandidate filename k] =
      output_folder ++ ["Others", uniqueCandidate filename k] := by
    simp
  have hsrc1 : (st.fs.ensureDir (output_folder ++ ["Others"])).lookup (source_folder ++ [filename]) = some c := by
    rw [FS.lookup_ensureDir]
    exact hfile
  refine ⟨hcat0, uniqueCandidate filename k, ?_, ?_, ?_⟩
  · rw [hdp, hshape]
  · rw [orgStep_move hnotdir hfail hcat rfl rfl]
    show ((st.fs.ensureDir (output_folder ++ ["Others"])).moveFile (source_folder ++ [filename])
      (unique_dest_path (st.fs.ensureDir (output_folder ++ ["Others"])) (output_folder ++ ["Others"]) filename)).lookup
      (output_folder ++ ["Others", uniqueCandidate filename k]) = some c
    rw [FS.lookup_moveFile_of_some hsrc1, hdp, hshape]
    simp
  · rw [orgStep_move hnotdir hfail hcat rfl rfl]
    dsimp only
    rw [hdp, hshape]

/-- C5 witness: the file `data.xyz` with the unknown extension `.xyz` is
routed to `Others/`. -/
theorem c5_unknown_extension_to_others_witness :
    ((⟨[(["s", "data.xyz"], FileData.blob 7)], [["s"]]⟩ : FS).isdir (["s"] ++ ["data.xyz"]) = false) ∧
    (∀ ce ∈ FILE_TYPES, toLowerF (splitextF "data.xyz").2 ∉ ce.2) ∧
    (get_category_for_extension (toLowerF (splitextF "data.xyz").2) = none ∧
      ∃ nm, unique_dest_path ((⟨[(["s", "data.xyz"], FileData.blob 7)], [["s"]]⟩ : FS).ensureDir (["o"] ++ ["Others"]))
          (["o"] ++ ["Others"]) "data.xyz" = ["o"] ++ ["Others", nm] ∧
        (orgStep (fun _ => "t") (fun _ => false) ["s"] ["o"] false
          { fs := ⟨[(["s", "data.xyz"], FileData.blob 7)], [["s"]]⟩, moved := [], counts := [],
            skipped := 0, total := 0, out := [] } "data.xyz").fs.lookup
          (["o"] ++ ["Others", nm]) = some (FileData.blob 7) ∧
        (orgStep (fun _ => "t") (fun _ => false) ["s"] ["o"] false
          { fs := ⟨[(["s", "data.xyz"], FileData.blob 7)], [["s"]]⟩, moved := [], counts := [],
            skipped := 0, total := 0, out := [] } "data.xyz").moved =
          [] ++ [{ timestamp := (fun _ : Nat => "t") 0,
                   src := some (["s"] ++ ["data.xyz"]),
                   dest := some (["o"] ++ ["Others", nm]) }]) := by
  refine ⟨by decide, by decide, ?_⟩
  exact c5_unknown_extension_to_others (fun _ => "t") (fun _ => false) ["s"] ["o"]
    { fs := ⟨[(["s", "data.xyz"], FileData.blob 7)], [["s"]]⟩, moved := [], counts := [],
      skipped := 0, total := 0, out := [] } "data.xyz" (FileData.blob 7)
    (by decide) (by decide) (by decide) (by decide)

/-! ### Listing and directory-creation lemmas -/

theorem childName_eq {dir p : FPath} {n : String} (h : childName dir p = some n) :
    p = dir ++ [n] := by
  unfold childName at h
  cases hl : p.getLast? with
  | none => rw [hl] at h; cases h
  | some m =>
    rw [hl] at h
    have h2 : (if List.dropLast p = dir then some m else none) = some n := h
    by_cases hd : p.dropLast = dir
    · rw [if_pos hd] at h2
      have hmn : m = n := by simpa using h2
      subst hmn
      have hne : p ≠ [] := by
        intro hnil
        rw [hnil] at hl
        cases hl
      have := List.dropLast_append_getLast hne
      rw [List.getLast?_eq_getLast p hne] at hl
      have hm2 : p.getLast hne = m := by simpa using hl
      rw [← hd, ← hm2]
      exact this.symm
    · rw [if_neg hd] at h2
      cases h2

theorem lookup_ne_none_of_mem_map_fst {fs : FS} {p : FPath}
    (h : p ∈ fs.files.map Prod.fst) : fs.lookup p ≠ none := by
  intro hn
  rw [List.mem_map] at h
  obtain ⟨e, he, hep⟩ := h
  rw [FS.lookup_def, lookupL] at hn
  cases hx : fs.files.find? (fun x => decide (x.1 = p)) with
  | some y => rw [hx] at hn; cases hn
  | none =>
    rw [List.find?_eq_none] at hx
    exact hx e he (by simp [hep])

theorem listdir_mem_cases {fs : FS} {dir : FPath} {n : String} (h : n ∈ fs.listdir dir) :
    ((dir ++ [n]) ∈ fs.files.map Prod.fst) ∨ ((dir ++ [n]) ∈ fs.dirs) := by
  unfold FS.listdir at h
  rw [List.mem_append] at h
  cases h with
  | inl h =>
    left
    rw [List.mem_filterMap] at h
    obtain ⟨p, hp, hcn⟩ := h
    rw [← childName_eq hcn]
    exact hp
  | inr h =>
    right
    rw [List.mem_filterMap] at h
    obtain ⟨p, hp, hcn⟩ := h
    rw [← childName_eq hcn]
    exact hp

theorem ancestorsOf_nodup (p : FPath) : (ancestorsOf p).Nodup := by
  unfold ancestorsOf
  refine List.Nodup.map_on ?_ (List.nodup_range _)
  intro x hx y hy hxy
  rw [List.mem_range] at hx hy
  have hlx : (p.take (x + 1)).length = x + 1 := by
    rw [List.length_take]
    omega
  have hly : (p.take (y + 1)).length = y + 1 := by
    rw [List.length_take]
    omega
  have := congrArg List.length hxy
  rw [hlx, hly] at this
  omega

theorem FS.ensureDir_dirs_nodup {fs : FS} (h : fs.dirs.Nodup) (p : FPath) :
    (fs.ensureDir p).dirs.Nodup := by
  unfold FS.ensureDir
  rw [List.nodup_append]
  refine ⟨h, (ancestorsOf_nodup p).filter _, ?_⟩
  intro q hq hq2
  rw [List.mem_filter] at hq2
  have := hq2.2
  simp at this
  exact this hq

theorem listdir_nodup {fs : FS} (hF : (fs.files.map Prod.fst).Nodup) (hD : fs.dirs.Nodup)
    (dir : FPath) :
    ((fs.files.map Prod.fst).filterMap (childName dir)).Nodup ∧
    (fs.dirs.filterMap (childName dir)).Nodup := by
  have hinj : ∀ (a a' : FPath), ∀ n ∈ childName dir a, n ∈ childName dir a' → a = a' := by
    intro a a' n hn hn'
    simp only [Option.mem_def] at hn hn'
    rw [childName_eq hn, childName_eq hn']
  exact ⟨List.Nodup.filterMap hinj hF, List.Nodup.filterMap hinj hD⟩

theorem listdir_pairwise {fs : FS} (hF : (fs.files.map Prod.fst).Nodup) (hD : fs.dirs.Nodup)
    (dir : FPath) :
    (fs.listdir dir).Pairwise (fun a b => a = b → (dir ++ [a]) ∈ fs.dirs) := by
  obtain ⟨hA, hB⟩ := listdir_nodup hF hD dir
  unfold FS.listdir
  rw [List.pairwise_append]
  have hBmem : ∀ n ∈ fs.dirs.filterMap (childName dir), (dir ++ [n]) ∈ fs.dirs := by
    intro n hn
    rw [List.mem_filterMap] at hn
    obtain ⟨p, hp, hcn⟩ := hn
    rw [← childName_eq hcn]
    exact hp
  refine ⟨hA.imp ?_, ?_, ?_⟩
  · intro a b hne heq
    exact absurd heq hne
  · exact List.pairwise_of_forall_mem_list (fun a ha b hb heq => hBmem a ha)
  · intro a ha b hb heq
    subst heq
    exact hBmem a hb

theorem FS.not_mem_dirs_of_isdir_false {fs : FS} {p : FPath} (h : fs.isdir p = false) :
    p ∉ fs.dirs := by
  intro hin
  unfold FS.isdir at h
  rw [decide_eq_true hin] at h
  cases h

/-! ### The organize fold preserves the move-sequence invariant -/

theorem orgFold_inv (tsf : Nat → String) (s o : FPath) (fsInit : FS) :
    ∀ (names : List String) (st : OrgSt),
      (∀ n ∈ names, fsInit.lookup (s ++ [n]) ≠ none ∨ (s ++ [n]) ∈ fsInit.dirs) →
      names.Pairwise (fun a b => a = b → (s ++ [a]) ∈ fsInit.dirs) →
      OrgInv s o fsInit st names →
      OrgInv s o fsInit (names.foldl (orgStep tsf (fun _ => false) s o false) st) [] := by
  intro names
  induction names with
  | nil =>
    intro st _ _ hinv
    exact hinv
  | cons n ns ih =>
    intro st hmem hpw hinv
    rw [List.foldl_cons]
    have hpwh := (List.pairwise_cons.mp hpw).1
    have hpw2 := (List.pairwise_cons.mp hpw).2
    have hmem2 : ∀ n2 ∈ ns, fsInit.lookup (s ++ [n2]) ≠ none ∨ (s ++ [n2]) ∈ fsInit.dirs :=
      fun n2 h2 => hmem n2 (List.mem_cons_of_mem _ h2)
    by_cases hdir : st.fs.isdir (s ++ [n]) = true
    · rw [orgStep_isdir hdir]
      apply ih st hmem2 hpw2
      obtain ⟨ms, h1, h2, h3, h4, h5, h6⟩ := hinv
      exact ⟨ms, h1, h2, h3, h4, h5, fun n2 hn2 => h6 n2 (List.mem_cons_of_mem _ hn2)⟩
    · have hdirF : st.fs.isdir (s ++ [n]) = false := by
        cases hx : st.fs.isdir (s ++ [n])
        · rfl
        · exact absurd hx hdir
      obtain ⟨ms, h1, h2, h3, h4, h5, h6⟩ := hinv
      have hnotdirs : (s ++ [n]) ∉ st.fs.dirs := FS.not_mem_dirs_of_isdir_false hdirF
      have hninit : (s ++ [n]) ∉ fsInit.dirs := fun hin => hnotdirs (h4 hin)
      obtain ⟨c, hc⟩ : ∃ c, fsInit.lookup (s ++ [n]) = some c := by
        cases hmem n (List.mem_cons_self _ _) with
        | inl hne =>
          cases hx : fsInit.lookup (s ++ [n]) with
          | none => exact absurd hx hne
          | some c => exact ⟨c, rfl⟩
        | inr hd => exact absurd hd hninit
      have hstc : st.fs.lookup (s ++ [n]) = some c := h6 n (List.mem_cons_self _ _) hnotdirs c hc
      rw [orgStep_move hdirF rfl rfl rfl rfl]
      apply ih _ hmem2 hpw2
      obtain ⟨k, hdpEq, hfreeB, _, _⟩ := unique_dest_path_spec
        (st.fs.ensureDir (o ++ [(get_category_for_extension (toLowerF (splitextF n).2)).getD "Others"]))
        (o ++ [(get_category_for_extension (toLowerF (splitextF n).2)).getD "Others"]) n
      rw [← hdpEq] at hfreeB
      have hfreeParts := FS.pathExistsB_false_parts hfreeB
      have hlookfs1 : ∀ q, (st.fs.ensureDir
          (o ++ [(get_category_for_extension (toLowerF (splitextF n).2)).getD "Others"])).lookup q =
          st.fs.lookup q := fun q => rfl
      have hstdpnone : st.fs.lookup (unique_dest_path
          (st.fs.ensureDir (o ++ [(get_category_for_extension (toLowerF (splitextF n).2)).getD "Others"]))
          (o ++ [(get_category_for_extension (toLowerF (splitextF n).2)).getD "Others"]) n) = none := by
        rw [← hlookfs1]
        exact hfreeParts.1
      refine ⟨ms ++ [⟨tsf st.moved.length, s ++ [n],
        unique_dest_path (st.fs.ensureDir (o ++ [(get_category_for_extension (toLowerF (splitextF n).2)).getD "Others"]))
          (o ++ [(get_category_for_extension (toLowerF (splitextF n).2)).getD "Others"]) n, c⟩],
        ?_, ?_, ?_, ?_, ?_, ?_⟩
      · dsimp only
        rw [h1, List.map_append]
        rfl
      · apply validSeq_snoc ms fsInit h2
        · rw [← h3]
          exact hstc
        · rw [← h3]
          exact hstdpnone
      · intro p
        dsimp only
        rw [applyMoves_append]
        have hcong : ∀ q, ((st.fs.ensureDir
            (o ++ [(get_category_for_extension (toLowerF (splitextF n).2)).getD "Others"])).lookup q) =
            (applyMoves fsInit ms).lookup q := fun q => (hlookfs1 q).trans (h3 q)
        exact FS.moveFile_lookup_congr hcong _ _ p
      · dsimp only
        intro d hd
        rw [FS.moveFile_dirs]
        exact FS.ensureDir_dirs_subset st.fs _ (h4 hd)
      · intro m2 hm2
        rw [List.mem_append] at hm2
        cases hm2 with
        | inl hin => exact h5 m2 hin
        | inr hone =>
          rw [List.mem_singleton] at hone
          subst hone
          refine ⟨⟨n, rfl⟩, hc, ⟨(get_category_for_extension (toLowerF (splitextF n).2)).getD "Others",
            uniqueCandidate n k, ?_⟩⟩
          dsimp only
          rw [hdpEq]
          simp
      · intro n2 hn2 hnotd c2 hc2
        dsimp only at hnotd ⊢
        rw [FS.moveFile_dirs] at hnotd
        have hnotd2 : (s ++ [n2]) ∉ st.fs.dirs :=
          fun hin => hnotd (FS.ensureDir_dirs_subset st.fs _ hin)
        have hstc2 : st.fs.lookup (s ++ [n2]) = some c2 :=
          h6 n2 (List.mem_cons_of_mem _ hn2) hnotd2 c2 hc2
        have hfs1src : (st.fs.ensureDir
            (o ++ [(get_category_for_extension (toLowerF (splitextF n).2)).getD "Others"])).lookup
            (s ++ [n]) = some c := hstc
        rw [FS.lookup_moveFile_of_some hfs1src]
        have hne_dp : (s ++ [n2]) ≠ unique_dest_path
            (st.fs.ensureDir (o ++ [(get_category_for_extension (toLowerF (splitextF n).2)).getD "Others"]))
            (o ++ [(get_category_for_extension (toLowerF (splitextF n).2)).getD "Others"]) n := by
          intro heq
          rw [← heq] at hstdpnone
          rw [hstc2] at hstdpnone
          cases hstdpnone
        have hne_src : (s ++ [n2]) ≠ s ++ [n] := by
          intro heq
          have : n2 = n := by
            have := List.append_cancel_left heq
            simpa using this
          subst this
          exact hninit (hpwh n2 hn2 rfl)
        rw [if_neg hne_dp, if_neg hne_src, hlookfs1]
        exact hstc2

/-! ### Claim C3 -/

/-- C3: round-trip law.  Starting from a well-formed filesystem (no duplicate
file paths, no duplicate directories) with no log file in the output folder,
running `organize`
(non-dry, no per-file failures) and then `undo_moves` (no per-entry
failures) on the same output folder restores every file byte-identically at
its original path — the file map is extensionally the pre-organize one — and
leaves the log file absent. -/
theorem c3_round_trip (tsf : Nat → String) (w : World) (s o : FPath)
    (hnodupF : (w.fs.files.map Prod.fst).Nodup)
    (hnodupD : w.fs.dirs.Nodup)
    (hnolog : w.fs.lookup (logPath o) = none) :
    (∀ p, (undo_moves (fun _ => false) (organize tsf (fun _ => false) w s o false).1 o).fs.lookup p =
      w.fs.lookup p) ∧
    (undo_moves (fun _ => false) (organize tsf (fun _ => false) w s o false).1 o).fs.lookup (logPath o) = none := by
  have hconc : ∀ p, (undo_moves (fun _ => false) (organize tsf (fun _ => false) w s o false).1 o).fs.lookup p =
      w.fs.lookup p := by
    by_cases hsrc : w.fs.pathExistsB s = false
    · have horg : organize tsf (fun _ => false) w s o false =
          ({ fs := w.fs, out := w.out ++ ["Source folder does not exist: " ++ pathStr s] }, []) := by
        unfold organize
        rw [if_pos hsrc]
      rw [horg]
      have hload : load_log w.fs o = [] := by
        unfold load_log
        rw [show ({ fs := w.fs, out := w.out ++ ["Source folder does not exist: " ++ pathStr s] } : World).fs.lookup (logPath o) =
          w.fs.lookup (logPath o) from rfl, hnolog]
      intro p
      unfold undo_moves
      rw [hload]
      rw [if_pos (show ([] : List LogEntry).isEmpty = true from rfl)]
    · have horg : organize tsf (fun _ => false) w s o false =
          orgFinish o (orgSummary (((w.fs.ensureDir o).listdir s).foldl
            (orgStep tsf (fun _ => false) s o false)
            { fs := w.fs.ensureDir o, moved := [], counts := [], skipped := 0, total := 0, out := w.out })) := by
        unfold organize
        rw [if_neg hsrc]
      set fsInit := w.fs.ensureDir o with hfsInit
      set names := fsInit.listdir s with hnames
      set st1 := names.foldl (orgStep tsf (fun _ => false) s o false)
        { fs := fsInit, moved := [], counts := [], skipped := 0, total := 0, out := w.out } with hst1
      have hInitLookup : ∀ p, fsInit.lookup p = w.fs.lookup p := fun p => rfl
      have hInitFiles : fsInit.files = w.fs.files := rfl
      have hmem1 : ∀ n ∈ names, fsInit.lookup (s ++ [n]) ≠ none ∨ (s ++ [n]) ∈ fsInit.dirs := by
        intro n hn
        cases listdir_mem_cases hn with
        | inl hfile => exact Or.inl (lookup_ne_none_of_mem_map_fst hfile)
        | inr hdirs => exact Or.inr hdirs
      have hpw : names.Pairwise (fun a b => a = b → (s ++ [a]) ∈ fsInit.dirs) := by
        apply listdir_pairwise
        · exact hnodupF
        · exact FS.ensureDir_dirs_nodup hnodupD o
      have hinv0 : OrgInv s o fsInit
          { fs := fsInit, moved := [], counts := [], skipped := 0, total := 0, out := w.out } names := by
        refine ⟨[], rfl, trivial, fun p => rfl, fun d hd => hd, ?_, ?_⟩
        · intro m hm
          exact absurd hm (List.not_mem_nil m)
        · intro n hn hnd c hc
          exact hc
      have hinv1 : OrgInv s o fsInit st1 [] := orgFold_inv tsf s o fsInit names _ hmem1 hpw hinv0
      obtain ⟨ms, h1, h2, h3, h4, h5, h6⟩ := hinv1
      have hlpInit : fsInit.lookup (logPath o) = none := hnolog
      have hlpnotms : ∀ m ∈ ms, logPath o ≠ m.src ∧ logPath o ≠ m.dest := by
        intro m hm
        obtain ⟨⟨n2, hsrcShape⟩, hsome, ⟨cat, nm, hdestShape⟩⟩ := h5 m hm
        constructor
        · intro heq
          rw [← heq, hlpInit] at hsome
          cases hsome
        · intro heq
          rw [hdestShape] at heq
          have hlen := congrArg List.length heq
          simp [logPath] at hlen
      have hst1lp : st1.fs.lookup (logPath o) = none := by
        rw [h3, applyMoves_lookup_untouched ms fsInit hlpnotms]
        exact hlpInit
      by_cases hms : ms = []
      · subst hms
        have hmoved : st1.moved = [] := by
          rw [h1]
          rfl
        have hfin : orgFinish o (orgSummary st1) =
            ({ fs := (orgSummary st1).fs,
               out := (orgSummary st1).out ++ ["No files were moved (dry run or nothing to move)."] },
              (orgSummary st1).moved) := by
          unfold orgFinish
          rw [if_pos (by show st1.moved.isEmpty = true; rw [hmoved]; rfl)]
        rw [horg, hfin]
        have hload : load_log (orgSummary st1).fs o = [] := by
          unfold load_log
          rw [show (orgSummary st1).fs.lookup (logPath o) = st1.fs.lookup (logPath o) from rfl, hst1lp]
        intro p
        unfold undo_moves
        rw [hload]
        rw [if_pos (show ([] : List LogEntry).isEmpty = true from rfl)]
        show st1.fs.lookup p = w.fs.lookup p
        rw [h3 p]
        exact hInitLookup p
      · have hmovedne : st1.moved ≠ [] := by
          rw [h1]
          simpa using hms
        have hfin : orgFinish o (orgSummary st1) =
            ({ fs := write_log (orgSummary st1).fs o (orgSummary st1).moved,
               out := (orgSummary st1).out ++ ["Log saved to: " ++ pathStr (logPath o)] },
              (orgSummary st1).moved) := by
          unfold orgFinish
          rw [if_neg (by show ¬ st1.moved.isEmpty = true; rw [List.isEmpty_iff]; exact hmovedne)]
        have hnotlog : ∀ l, (orgSummary st1).fs.lookup (logPath o) ≠ some (FileData.log l) := by
          intro l hl
          rw [show (orgSummary st1).fs.lookup (logPath o) = st1.fs.lookup (logPath o) from rfl, hst1lp] at hl
          cases hl
        have hw1eq : write_log (orgSummary st1).fs o (orgSummary st1).moved =
            (st1.fs.ensureDir o).setFile (logPath o) (FileData.log st1.moved) :=
          write_log_of_not_log hnotlog _
        have hw1lk : (write_log (orgSummary st1).fs o (orgSummary st1).moved).lookup (logPath o) =
            some (FileData.log st1.moved) := by
          rw [hw1eq, FS.lookup_setFile, if_pos rfl]
        have hload : load_log (write_log (orgSummary st1).fs o (orgSummary st1).moved) o = st1.moved := by
          unfold load_log
          rw [hw1lk]
        have hsetcomm := validSeq_setFile (logPath o) (FileData.log st1.moved) ms fsInit hlpnotms h2
        have hnonempty : ∀ m ∈ ms, m.src ≠ [] ∧ m.dest ≠ [] := by
          intro m hm
          obtain ⟨⟨n2, hsrcShape⟩, _, ⟨cat, nm, hdestShape⟩⟩ := h5 m hm
          constructor
          · rw [hsrcShape]
            simp
          · rw [hdestShape]
            simp
        have hstart : ∀ p, (write_log (orgSummary st1).fs o (orgSummary st1).moved).lookup p =
            (applyMoves (fsInit.setFile (logPath o) (FileData.log st1.moved)) ms).lookup p := by
          intro p
          rw [hw1eq, FS.lookup_setFile, hsetcomm.2 p, FS.lookup_setFile]
          by_cases hp : p = logPath o
          · rw [if_pos hp, if_pos hp]
          · rw [if_neg hp, if_neg hp]
            rw [show (st1.fs.ensureDir o).lookup p = st1.fs.lookup p from rfl, h3 p]
        rw [horg, hfin]
        intro p
        unfold undo_moves
        rw [hload]
        rw [if_neg (by rw [List.isEmpty_iff]; exact hmovedne)]
        have hunwind := undo_unwind ms (fsInit.setFile (logPath o) (FileData.log st1.moved))
          { fs := write_log (orgSummary st1).fs o (orgSummary st1).moved, failed := [],
            out := (orgSummary st1).out ++ ["Log saved to: " ++ pathStr (logPath o)] } 0
          hsetcomm.1 hnonempty hstart
        rw [h1] at hunwind
        obtain ⟨hrfail, hrfs⟩ := hunwind
        rw [show st1.moved.reverse = (ms.map toEntry).reverse from by rw [h1]]
        unfold undoFinish
        rw [if_pos (by rw [hrfail]; rfl)]
        dsimp only
        rw [FS.lookup_removeFile]
        by_cases hp : p = logPath o
        · rw [if_pos hp, hp, hnolog]
        · rw [if_neg hp, hrfs p, FS.lookup_setFile, if_neg hp]
          exact hInitLookup p
  exact ⟨hconc, by rw [hconc (logPath o)]; exact hnolog⟩

/-- C3 witness: organizing the two files `a.txt` and `a.jpg` of `rtWorld`
into `o/` and then undoing restores the file map exactly and leaves no log
file. -/
theorem c3_round_trip_witness :
    ((rtWorld.fs.files.map Prod.fst).Nodup ∧ rtWorld.fs.dirs.Nodup ∧
      rtWorld.fs.lookup (logPath ["o"]) = none) ∧
    (∀ p, (undo_moves (fun _ => false)
        (organize (fun _ => "t") (fun _ => false) rtWorld ["s"] ["o"] false).1 ["o"]).fs.lookup p =
      rtWorld.fs.lookup p) ∧
    (undo_moves (fun _ => false)
        (organize (fun _ => "t") (fun _ => false) rtWorld ["s"] ["o"] false).1 ["o"]).fs.lookup
      (logPath ["o"]) = none := by
  have h := c3_round_trip (fun _ => "t") rtWorld ["s"] ["o"] (by decide) (by decide) (by decide)
  exact ⟨⟨by decide, by decide, by decide⟩, h.1, h.2⟩
